import Mathlib

/-!
Verification of the flash-rover device firmware (TI CC13xx/CC26xx external
flash server).  The development shallowly embeds the two firmware
generations found in the repository:

* the Doorbell generation: `bsp::Server` / `bsp::Doorbell` (doorbell.hpp),
  the dispatcher `Loop` of the doorbell main file, and the flash driver
  `bsp::Xflash` (ext_flash.hpp) over `bsp::Spi` (spi.hpp) and `bsp::Power`
  (power.hpp);
* the UART generation: the dispatcher `Loop` with `checkAddressRange`,
  `bsp::Serialize` response types, and the flash driver `bsp::ExtFlash`.

Machine integers are modelled as `Nat`; the concrete widths enter through
explicit hypotheses or saturation constants (`255` for the `uint8_t`
dependency counters) exactly where the C++ depends on them.
-/

namespace FlashRover

/-! ### Flash driver data model (ext_flash.hpp, both generations) -/

/-- Structure `XflashInfo` / `ExtFlashInfo`: probe result for the external flash. -/
structure XflashInfo where
  deviceSize : Nat := 0
  manfId : Nat := 0
  devId : Nat := 0
  supported : Bool := false
  deriving DecidableEq, Repr

/-- The static supported-parts table `supportedHw` (identical in both
generations): Macronix MX25R1635F, Macronix MX25R8035F, WinBond W25X40CL,
WinBond W25X20CL. -/
def supportedHw : List XflashInfo :=
  [ { deviceSize := 0x200000, manfId := 0xC2, devId := 0x15 },
    { deviceSize := 0x100000, manfId := 0xC2, devId := 0x14 },
    { deviceSize := 0x080000, manfId := 0xEF, devId := 0x12 },
    { deviceSize := 0x040000, manfId := 0xEF, devId := 0x11 } ]

/-- The linear search of `Xflash::verifyPart` over `supportedHw`: first
entry whose manufacturer and device ids both match. -/
def lookupHw (manfId devId : Nat) : Option XflashInfo :=
  supportedHw.find? (fun hw => hw.manfId == manfId && hw.devId == devId)

/-- Constant `Xflash::programPageSize` (256-byte program pages). -/
def programPageSize : Nat := 256

/-- Constant `Xflash::eraseSectorSize` (4 KiB erase sectors). -/
def eraseSectorSize : Nat := 4096

/-- The sector-erase address sequence issued by `Xflash::erase(len, offset)`:

    size_t endoffset = offset + len - 1;
    offset = (offset / eraseSectorSize) * eraseSectorSize;
    size_t numsectors = (endoffset - offset + eraseSectorSize - 1) / eraseSectorSize;
    for (size_t i = 0; i < numsectors; i++) { ... erase_4k at offset ...; offset += eraseSectorSize; }

The list holds the addresses given to the `erase_4k` opcode, in issue
order.  `size_t` on this target is 32 bits, so every step of the C++
arithmetic wraps modulo `2 ^ 32`; that wrap is modelled explicitly: the
unsigned `offset + len - 1` is written `(offset + len + (2 ^ 32 - 1)) % 2 ^ 32`
(identical for every `len`, including `len = 0`), the unsigned difference
`endoffset - offset` is written `(endoffset + 2 ^ 32 - aligned) % 2 ^ 32`,
the subsequent `+ eraseSectorSize - 1` (whose first summand is already
reduced, so the Nat form cannot underflow) gets its own `% 2 ^ 32`, and
the running `offset += eraseSectorSize` of the loop makes the `i`-th
issued address `(aligned + i * eraseSectorSize) % 2 ^ 32`.  Intended for
arguments below `2 ^ 32`, as delivered by the 32-bit registers. -/
def eraseSectors (len offset : Nat) : List Nat :=
  let endoffset := (offset + len + (2 ^ 32 - 1)) % 2 ^ 32
  let aligned := (offset / eraseSectorSize) * eraseSectorSize
  let numsectors :=
    ((endoffset + 2 ^ 32 - aligned) % 2 ^ 32 + eraseSectorSize - 1) % 2 ^ 32
      / eraseSectorSize
  (List.range numsectors).map (fun i => (aligned + i * eraseSectorSize) % 2 ^ 32)

/-- One bus event of `Xflash::write`: the per-iteration wait-for-ready
status poll, the `write_enable` opcode, or a `program` (page program)
instruction carrying its start offset and payload bytes. -/
inductive WriteEv where
  | waitReady
  | writeEnable
  | pageProgram (offset : Nat) (data : List Nat)
  deriving DecidableEq, Repr

/-- The per-iteration transfer length of `Xflash::write`:
`ilen = programPageSize - (offset % programPageSize)` capped by the
remaining length (`if (len < ilen) ilen = len`). -/
def interimLen (buf : List Nat) (offset : Nat) : Nat :=
  min (programPageSize - offset % programPageSize) buf.length

/-- The event trace of `Xflash::write(buf, len, offset)`:

    while (len > 0) {
      waitReady(); writeEnable();
      size_t ilen = programPageSize - (offset % programPageSize);
      if (len < ilen) ilen = len;
      ... program ilen bytes at offset ...;
      offset += ilen; len -= ilen; buf += ilen;
    }

modelled with the buffer as the list of its bytes. -/
def writeTrace (buf : List Nat) (offset : Nat) : List WriteEv :=
  if h : buf = [] then []
  else
    WriteEv.waitReady :: WriteEv.writeEnable ::
      WriteEv.pageProgram offset (buf.take (interimLen buf offset)) ::
      writeTrace (buf.drop (interimLen buf offset)) (offset + interimLen buf offset)
termination_by buf.length
decreasing_by
  have hpos : 0 < buf.length := List.length_pos.mpr h
  have hil : 0 < interimLen buf offset := by
    have : offset % programPageSize < programPageSize :=
      Nat.mod_lt _ (by simp [programPageSize])
    simp only [interimLen, Nat.lt_min]
    omega
  simpa using Nat.sub_lt hpos hil

/-- The page-program instructions of `Xflash::write`, as
(start offset, payload) pairs extracted from the trace. -/
def writeChunks (buf : List Nat) (offset : Nat) : List (Nat × List Nat) :=
  (writeTrace buf offset).filterMap
    (fun e => match e with
      | WriteEv.pageProgram o d => some (o, d)
      | _ => none)

/-- Start offsets of a chunk list whose payload lengths are `ls`, first
chunk at `o`: each following chunk starts where the previous one ended. -/
def chunkStarts (o : Nat) : List Nat → List Nat
  | [] => []
  | l :: ls => o :: chunkStarts (o + l) ls

/-! ### Doorbell-generation flash driver state (ext_flash.hpp `Xflash`) -/

/-- The private cache of `Xflash`: `struct { XflashInfo info; bool valid; } xflash_`. -/
structure XflashSt where
  info : XflashInfo := {}
  valid : Bool := false
  deriving DecidableEq, Repr

/-- Outcomes of the SPI transactions the `Xflash` constructor performs:
whether `powerStandby` (its final `waitReady`) succeeds, whether the
`readInfo` id read succeeds, and the two id bytes the chip answers.
`Spi::write` itself cannot fail, so these capture every failure point. -/
structure ProbeEnv where
  standbyOk : Bool
  probeReadOk : Bool
  manfId : Nat
  devId : Nat

/-- The `Xflash` constructor: deselect, `powerStandby`, then `verifyPart`
(`readInfo` + table match).  Returns the resulting cache state together
with `true` when the chip was powered back down by `close()` (both
failure paths call `close()`). -/
def xflashInit (env : ProbeEnv) : XflashSt × Bool :=
  if !env.standbyOk then
    ({ }, true)
  else
    let st : XflashSt :=
      if env.probeReadOk then
        { info := { manfId := env.manfId, devId := env.devId }, valid := true }
      else
        { valid := false }
    if !env.probeReadOk then
      (st, true)
    else
      match lookupHw env.manfId env.devId with
      | some hw =>
        ({ st with info := { st.info with supported := true, deviceSize := hw.deviceSize } },
         false)
      | none => (st, true)

/-- Method `Xflash::getInfo`: the cached probe result when `valid`, else absent
(`nullptr`). -/
def getInfo (st : XflashSt) : Option XflashInfo :=
  if st.valid then some st.info else none

/-- One bus event of a data operation of `Xflash`. -/
inductive XflashEv where
  | statusRead
  | readCmd (offset : Nat)
  | readData (len : Nat)
  deriving DecidableEq, Repr

/-- Method `Xflash::read(buf, len, offset)`: `waitReady()`, then the read opcode
with the 24-bit address, then the streaming SPI read.  `waitReadyOk` and
`spiReadOk` are the outcomes of the two fallible SPI reads involved
(`Spi::write` always succeeds).  The function returns the success flag and
the bus events issued; note that the cached driver state `st` is never
consulted (the source has no `valid`/`supported` check). -/
def xflashRead (st : XflashSt) (offset len : Nat) (waitReadyOk spiReadOk : Bool) :
    Bool × List XflashEv :=
  if !waitReadyOk then
    (false, [XflashEv.statusRead])
  else
    (spiReadOk, [XflashEv.statusRead, XflashEv.readCmd offset, XflashEv.readData len])

/-! ### Doorbell command/response layer (doorbell.hpp, doorbell main file) -/

/-- Structure `bsp::Command`: kind tag plus three `u32` arguments.  The kind is kept
as its `u32` wire value (`0x00` none, `0xC0` XflashInfo, `0xC1`
SectorErase, `0xC2` MassErase, `0xC3` ReadBlock, `0xC4` WriteBlock). -/
structure Command where
  kind : Nat := 0
  arg0 : Nat := 0
  arg1 : Nat := 0
  arg2 : Nat := 0
  deriving DecidableEq, Repr

/-- Structure `bsp::Response`: kind tag plus three `u32` arguments (`0x00` none,
`0xD0` Ok, `0xD1` XflashInfo, `0x80` Error, `0x81` ErrorSpi, `0x82`
ErrorXflash, `0x83` ErrorBufOverflow). -/
structure Response where
  kind : Nat := 0
  arg0 : Nat := 0
  arg1 : Nat := 0
  arg2 : Nat := 0
  deriving DecidableEq, Repr

/-- Constant `XFLASH_BUF_SIZE`: capacity of the fixed transfer buffer `xflashbuf`. -/
def xflashBufSize : Nat := 0x1000

/-- The flash-driver call a dispatched command performs, if any
(`getInfo` is cache-only and performs no bus access, so it is not one). -/
inductive FlashCall where
  | read (offset len : Nat)
  | write (offset len : Nat)
  | erase (offset len : Nat)
  | massErase
  deriving DecidableEq, Repr

/-- Driver outcomes as seen by the dispatcher `Loop`: the cached
`getInfo()` answer and the boolean results of the four data operations. -/
structure FlashEnv where
  info : Option XflashInfo := none
  readOk : Bool := true
  writeOk : Bool := true
  eraseOk : Bool := true
  massOk : Bool := true
  deriving DecidableEq, Repr

/-- The command switch of the doorbell-generation `Loop::run` with its
handlers `xflashInfo`, `massErase`, `sectorErase`, `readBlock`,
`writeBlock` and the default `error()`.  Returns the response written
back plus the flash-driver call made (`none` when the driver was not
invoked, i.e. no SPI transaction happened). -/
def dispatch (cmd : Command) (env : FlashEnv) : Response × Option FlashCall :=
  if cmd.kind = 0xC0 then
    match env.info with
    | none => ({ kind := 0x82 }, none)
    | some i => ({ kind := 0xD1, arg0 := i.manfId, arg1 := i.devId }, none)
  else if cmd.kind = 0xC2 then
    (if env.massOk then { kind := 0xD0 } else { kind := 0x82 }, some FlashCall.massErase)
  else if cmd.kind = 0xC1 then
    (if env.eraseOk then { kind := 0xD0 } else { kind := 0x82 },
     some (FlashCall.erase cmd.arg0 cmd.arg1))
  else if cmd.kind = 0xC3 then
    if cmd.arg1 > xflashBufSize then ({ kind := 0x83 }, none)
    else
      (if env.readOk then { kind := 0xD0 } else { kind := 0x82 },
       some (FlashCall.read cmd.arg0 cmd.arg1))
  else if cmd.kind = 0xC4 then
    if cmd.arg1 > xflashBufSize then ({ kind := 0x83 }, none)
    else
      (if env.writeOk then { kind := 0xD0 } else { kind := 0x82 },
       some (FlashCall.write cmd.arg0 cmd.arg1))
  else
    ({ kind := 0x80 }, none)

/-- Shared-memory accesses of one `Server` iteration, in program order. -/
inductive SrvEv where
  | copyCmd (c : Command)
  | clearCmdKind
  | writeRspArg (idx v : Nat)
  | writeRspKind (k : Nat)
  | waitRspConsumed
  deriving DecidableEq, Repr

/-- The recognized command tags of `Server::waitForCommand`. -/
def recognized (k : Nat) : Bool :=
  k == 0xC0 || k == 0xC1 || k == 0xC2 || k == 0xC3 || k == 0xC4

/-- Method `Server::waitForCommand` over the successive non-empty command values
the controller presents: an unrecognized kind is cleared and the wait
resumes; the first recognized command is copied out in full and then
acknowledged by clearing `cmd.kind`.  `none` models the busy-wait never
being satisfied (the pending list runs out). -/
def waitForCommand : List Command → Option (Command × List SrvEv × List Command)
  | [] => none
  | c :: rest =>
    if recognized c.kind then
      some (c, [SrvEv.copyCmd c, SrvEv.clearCmdKind], rest)
    else
      match waitForCommand rest with
      | none => none
      | some (c2, evs, rest2) => some (c2, SrvEv.clearCmdKind :: evs, rest2)

/-- Method `Server::sendResponse`: the three argument stores, then the `kind`
store that triggers the response, then the busy-wait for the controller
to consume it. -/
def sendResponseEvents (r : Response) : List SrvEv :=
  [SrvEv.writeRspArg 0 r.arg0, SrvEv.writeRspArg 1 r.arg1, SrvEv.writeRspArg 2 r.arg2,
   SrvEv.writeRspKind r.kind, SrvEv.waitRspConsumed]

/-- Whether a shared-memory event is the store of `rsp.kind` — the store
that makes a response visible to the controller. -/
def respTrigger : SrvEv → Bool
  | SrvEv.writeRspKind _ => true
  | _ => false

/-- One iteration of `Loop::run`: wait for a command, dispatch it, send
the response.  Yields the shared-memory event trace of the iteration and
the commands still pending for the next iteration. -/
def serverIteration (pending : List Command) (env : FlashEnv) :
    Option (List SrvEv × List Command) :=
  match waitForCommand pending with
  | none => none
  | some (c, evs, rest) => some (evs ++ sendResponseEvents (dispatch c env).1, rest)

/-! ### UART-generation dispatcher (serialize.hpp, UART main file) -/

/-- Method `Loop::checkAddressRange(offset, length)` of the UART generation: the
end address is computed with a widened 64-bit sum; pairs past `2^32 - 1`
are rejected, an absent probe result rejects everything, and a supported
device rejects end addresses beyond its size.  `info` models the
`Either` returned by `ExtFlash::getInfo` (`some` = `Left`). -/
def checkAddressRange (info : Option XflashInfo) (offset length : Nat) : Bool :=
  let endPoint := offset + length
  if endPoint > 0xFFFFFFFF then false
  else
    match info with
    | none => false
    | some i => if i.supported = true ∧ endPoint > i.deviceSize then false else true

/-- Structure `Serialize::Response` of the UART generation (type byte plus up to
three argument words).  Type values: `0x01` Ack, `0x02` AckPend, `0x03`
FlashInfo, `0x04` WriteSize, `0x05` DataRead, `0x80` Error, `0x81`
ErrorExtFlash, `0x82` ErrorUnsupported, `0x83` ErrorAddressRange (the
source assigns `0x83` to ErrorBufferOverflow as well). -/
structure UartResponse where
  type : Nat := 0
  arg0 : Nat := 0
  arg1 : Nat := 0
  arg2 : Nat := 0
  deriving DecidableEq, Repr

/-- Method `Loop::sendFlashInfo` of the UART generation: a supported part is
reported as FlashInfo with manufacturer id, device id and device size; an
unsupported part as ErrorUnsupported with the two ids. -/
def sendFlashInfo (i : XflashInfo) : UartResponse :=
  if i.supported then
    { type := 0x03, arg0 := i.manfId, arg1 := i.devId, arg2 := i.deviceSize }
  else
    { type := 0x82, arg0 := i.manfId, arg1 := i.devId }

/-! ### SPI transport (spi.hpp `Spi`) -/

/-- One driverlib call of an `Spi` transfer loop. -/
inductive SpiEv where
  | dataPut (b : Nat)
  | dataPutNonBlocking
  | dataGet
  deriving DecidableEq, Repr

/-- Method `Spi::write(buf, len)`: for each byte a blocking `SSIDataPut` and a
discarded `SSIDataGet`; no failure path exists and the function returns
`true`. -/
def spiWrite : List Nat → Bool × List SpiEv
  | [] => (true, [])
  | b :: rest =>
    let r := spiWrite rest
    (r.1, SpiEv.dataPut b :: SpiEv.dataGet :: r.2)

/-- Method `Spi::read(buf, len)`: per byte a non-blocking FIFO put of a filler
byte, which can fail (`SSIDataPutNonBlocking` returning 0 aborts with
`false`), then a blocking `SSIDataGet`.  `putOk i` tells whether the
`i`-th non-blocking put succeeds. -/
def spiRead (putOk : Nat → Bool) (len idx : Nat) : Bool :=
  match len with
  | 0 => true
  | n + 1 => if !putOk idx then false else spiRead putOk n (idx + 1)

/-! ### Power/peripheral resource manager (power.hpp `bsp::Power`)

The CC13X2/CC26X2 device-family branch is modelled (its periph set is the
one the `counts_` struct declares in full).  The `uint8_t` dependency
counters saturate at `max_dep_count = 255`. -/

/-- Enumeration `Power::Domain` (including the `None` placeholder, for which
`getDepCount` yields `nullptr` and every operation is a no-op). -/
inductive Domain where
  | RFCore | Serial | Periph | Vims | Sysbus | Cpu | None
  deriving DecidableEq, Repr, Fintype

/-- Enumeration `Power::Periph` (CC13X2/CC26X2 branch, including the `None`
placeholder). -/
inductive Periph where
  | Timer0 | Timer1 | Timer2 | Timer3
  | Ssi0 | Ssi1 | Uart0 | Uart1 | I2c0
  | Crypto | Trng | Pka | Udma | Gpio | I2s | None
  deriving DecidableEq, Repr, Fintype

/-- Method `Power::getDomainDependency`: the static parent domain of each
peripheral. -/
def parentOf : Periph → Domain
  | Periph.Timer0 => Domain.Periph
  | Periph.Timer1 => Domain.Periph
  | Periph.Timer2 => Domain.Periph
  | Periph.Timer3 => Domain.Periph
  | Periph.Ssi0 => Domain.Serial
  | Periph.Ssi1 => Domain.Periph
  | Periph.Uart0 => Domain.Serial
  | Periph.Uart1 => Domain.Periph
  | Periph.I2c0 => Domain.Serial
  | Periph.Crypto => Domain.Periph
  | Periph.Trng => Domain.Periph
  | Periph.Pka => Domain.Periph
  | Periph.Udma => Domain.Periph
  | Periph.Gpio => Domain.Periph
  | Periph.I2s => Domain.Periph
  | Periph.None => Domain.None

/-- Constant `max_dep_count`: the saturation bound of the `uint8_t` counters. -/
def maxDepCount : Nat := 255

/-- The manager state: the `counts_` struct (one counter per domain and
peripheral, viewed as total maps) together with the hardware power state
driven through the PRCM driverlib calls (`domainOn d` = the domain power
is on, `periphOn p` = the peripheral run clock is enabled). -/
@[ext]
structure PState where
  domainCount : Domain → Nat
  periphCount : Periph → Nat
  domainOn : Domain → Bool
  periphOn : Periph → Bool

/-- Pointwise update of a counter map. -/
def updD (f : Domain → Nat) (d : Domain) (v : Nat) : Domain → Nat :=
  fun d2 => if d2 = d then v else f d2

/-- Pointwise update of a peripheral counter map. -/
def updP (f : Periph → Nat) (p : Periph) (v : Nat) : Periph → Nat :=
  fun p2 => if p2 = p then v else f p2

/-- Pointwise update of a domain power-state map. -/
def updDB (f : Domain → Bool) (d : Domain) (v : Bool) : Domain → Bool :=
  fun d2 => if d2 = d then v else f d2

/-- Pointwise update of a peripheral power-state map. -/
def updPB (f : Periph → Bool) (p : Periph) (v : Bool) : Periph → Bool :=
  fun p2 => if p2 = p then v else f p2

/-- Store `v` into the peripheral counter of `p` (the write through the
pointer `getDepCount(periph)` returns). -/
def storePeriphCount (S : PState) (p : Periph) (v : Nat) : PState :=
  { S with periphCount := updP S.periphCount p v }

/-- The effect of `PRCMPeripheralRunEnable`/`RunDisable` on the modelled
hardware state. -/
def storePeriphOn (S : PState) (p : Periph) (v : Bool) : PState :=
  { S with periphOn := updPB S.periphOn p v }

/-- Method `Power::setDependency(Domain)`: no-op on `None` (null counter) and on
a saturated counter; otherwise increment, and on the 0-to-1 edge power
the domain on (`PRCMPowerDomainOn` plus the confirmation poll). -/
def setDomainDep (S : PState) (d : Domain) : PState :=
  if d = Domain.None then S
  else if S.domainCount d = maxDepCount then S
  else
    { S with
      domainCount := updD S.domainCount d (S.domainCount d + 1),
      domainOn := if S.domainCount d + 1 = 1 then updDB S.domainOn d true else S.domainOn }

/-- Method `Power::clearDependency(Domain)`: no-op on `None` and on a zero
counter; otherwise decrement, and on the 1-to-0 edge power the domain off
(`PRCMPowerDomainOff` plus the confirmation poll). -/
def clearDomainDep (S : PState) (d : Domain) : PState :=
  if d = Domain.None then S
  else if S.domainCount d = 0 then S
  else
    { S with
      domainCount := updD S.domainCount d (S.domainCount d - 1),
      domainOn := if S.domainCount d - 1 = 0 then updDB S.domainOn d false else S.domainOn }

/-- Method `Power::setDependency(Periph)`: no-op on `None` and on a saturated
counter; otherwise increment (`dep_count += 1`), and when the new count
is 1 first acquire the parent domain, then enable the peripheral run
clock (`PRCMPeripheralRunEnable` / `PRCMLoadSet`). -/
def setPeriphDep (S : PState) (p : Periph) : PState :=
  if p = Periph.None then S
  else if S.periphCount p = maxDepCount then S
  else if S.periphCount p + 1 = 1 then
    storePeriphOn
      (setDomainDep (storePeriphCount S p (S.periphCount p + 1)) (parentOf p)) p true
  else storePeriphCount S p (S.periphCount p + 1)

/-- Method `Power::clearDependency(Periph)`: no-op on `None` and on a zero
counter; otherwise decrement (`dep_count -= 1`), and when the new count
is 0 disable the peripheral run clock and then release the parent
domain. -/
def clearPeriphDep (S : PState) (p : Periph) : PState :=
  if p = Periph.None then S
  else if S.periphCount p = 0 then S
  else if S.periphCount p - 1 = 0 then
    clearDomainDep
      (storePeriphOn (storePeriphCount S p (S.periphCount p - 1)) p false) (parentOf p)
  else storePeriphCount S p (S.periphCount p - 1)

/-- An acquire/release operation: `setD`/`clearD` are the
`DomainHandle` constructor/destructor, `setP`/`clearP` the
`PeriphHandle` constructor/destructor. -/
inductive Op where
  | setD (d : Domain)
  | clearD (d : Domain)
  | setP (p : Periph)
  | clearP (p : Periph)
  deriving DecidableEq, Repr

/-- Execute one operation. -/
def execOp (S : PState) : Op → PState
  | Op.setD d => setDomainDep S d
  | Op.clearD d => clearDomainDep S d
  | Op.setP p => setPeriphDep S p
  | Op.clearP p => clearPeriphDep S p

/-- Execute an operation sequence left to right. -/
def run (S : PState) (ops : List Op) : PState :=
  ops.foldl execOp S

/-- Whether executing `o` in `S` attempts an acquire on a saturated
counter (the silent no-op branch of `setDependency`), including the
transitive parent-domain acquire inside a peripheral 0-to-1 edge. -/
def satHit (S : PState) : Op → Bool
  | Op.setD d => decide (d ≠ Domain.None) && decide (S.domainCount d = maxDepCount)
  | Op.clearD _ => false
  | Op.setP p =>
    if p = Periph.None then false
    else if S.periphCount p = maxDepCount then true
    else if S.periphCount p = 0 then
      decide (parentOf p ≠ Domain.None) &&
        decide (S.domainCount (parentOf p) = maxDepCount)
    else false
  | Op.clearP _ => false

/-- Whether an operation sequence executes without ever acquiring a
saturated counter. -/
def satFree (S : PState) : List Op → Bool
  | [] => true
  | o :: rest => !satHit S o && satFree (execOp S o) rest

/-- Sequences in which each acquire is paired with a matching release:
empty, a handle scope wrapping a paired sequence, or two paired
sequences in succession. -/
inductive Balanced : List Op → Prop
  | nil : Balanced []
  | wrapD (d : Domain) (b : List Op) :
      Balanced b → Balanced (Op.setD d :: b ++ [Op.clearD d])
  | wrapP (p : Periph) (b : List Op) :
      Balanced b → Balanced (Op.setP p :: b ++ [Op.clearP p])
  | app (b1 b2 : List Op) : Balanced b1 → Balanced b2 → Balanced (b1 ++ b2)

/-- The hardware/counter coupling every state reachable from reset
satisfies: a domain or peripheral is powered/clocked exactly when its
dependency counter is positive. -/
def InvHw (S : PState) : Prop :=
  (∀ d, S.domainOn d = decide (0 < S.domainCount d)) ∧
  (∀ p, S.periphOn p = decide (0 < S.periphCount p))

/-- The startup state: all counters zero, everything powered off. -/
def initState : PState :=
  { domainCount := fun _ => 0, periphCount := fun _ => 0,
    domainOn := fun _ => false, periphOn := fun _ => false }

/-- Validity of a history of operations: every release matches an earlier
acquire of the same resource.  `od`/`op2` carry the currently open
(unreleased) acquire counts per domain and peripheral. -/
def openOk (od : Domain → Nat) (op2 : Periph → Nat) : List Op → Bool
  | [] => true
  | Op.setD d :: rest => openOk (updD od d (od d + 1)) op2 rest
  | Op.clearD d :: rest =>
    if od d = 0 then false else openOk (updD od d (od d - 1)) op2 rest
  | Op.setP p :: rest => openOk od (updP op2 p (op2 p + 1)) rest
  | Op.clearP p :: rest =>
    if op2 p = 0 then false else openOk od (updP op2 p (op2 p - 1)) rest

/-- The fifteen real peripherals (every `Periph` except `None`). -/
def allPeriphs : List Periph :=
  [Periph.Timer0, Periph.Timer1, Periph.Timer2, Periph.Timer3,
   Periph.Ssi0, Periph.Ssi1, Periph.Uart0, Periph.Uart1, Periph.I2c0,
   Periph.Crypto, Periph.Trng, Periph.Pka, Periph.Udma, Periph.Gpio, Periph.I2s]

/-- Number of peripherals under domain `d` whose dependency counter is
positive. -/
def activeCount (S : PState) (d : Domain) : Nat :=
  allPeriphs.countP (fun p => decide (parentOf p = d) && decide (0 < S.periphCount p))

/-- The bookkeeping invariant tying a state to the open acquire counts of
its history: each real peripheral counter equals the open peripheral
acquires, and each real domain counter equals the open direct domain
acquires plus the number of active peripherals beneath it. -/
def TrackOk (S : PState) (od : Domain → Nat) (op2 : Periph → Nat) : Prop :=
  (∀ p, p ≠ Periph.None → S.periphCount p = op2 p) ∧
  (∀ d, d ≠ Domain.None → S.domainCount d = od d + activeCount S d)

/-- The state after acquiring the Periph power domain `c` times from
reset: its counter is `c`, it is powered when `c` is positive, and
nothing else is held. -/
def satDomState (c : Nat) : PState :=
  { domainCount := fun d => if d = Domain.Periph then c else 0,
    periphCount := fun _ => 0,
    domainOn := fun d => if d = Domain.Periph then decide (0 < c) else false,
    periphOn := fun _ => false }

/-- The same with the Gpio peripheral additionally held once. -/
def satBothState (c : Nat) : PState :=
  { domainCount := fun d => if d = Domain.Periph then c else 0,
    periphCount := fun p => if p = Periph.Gpio then 1 else 0,
    domainOn := fun d => if d = Domain.Periph then decide (0 < c) else false,
    periphOn := fun p => if p = Periph.Gpio then true else false }

/-! ## Theorems -/

/-! ### Erase sector arithmetic (claim C2) -/

theorem lt_ceil_div (i e s : Nat) (hs : 0 < s) :
    i < (e + s - 1) / s ↔ s * i < e := by
  rcases Nat.eq_zero_or_pos e with he | he
  · subst he
    have : (s - 1) / s = 0 := Nat.div_eq_of_lt (by omega)
    simp [this]
  · have h1 : (e + s - 1) / s ≤ i ↔ e + s - 1 ≤ s * i + (s - 1) :=
      Nat.div_le_iff_le_mul_add_pred hs
    constructor
    · intro h
      by_contra hc
      exact absurd (h1.mpr (by omega)) (by omega)
    · intro h
      by_contra hc
      have := h1.mp (by omega)
      omega

theorem eraseSectors_of_no_wrap (len offset : Nat) (h : 1 ≤ len)
    (hbound : offset + len + eraseSectorSize ≤ 2 ^ 32) :
    eraseSectors len offset
      = (List.range ((offset + len - 1 - offset / eraseSectorSize * eraseSectorSize
            + eraseSectorSize - 1) / eraseSectorSize)).map
          (fun i => offset / eraseSectorSize * eraseSectorSize + i * eraseSectorSize) := by
  have h32 : (2 : Nat) ^ 32 = 4294967296 := by norm_num
  simp only [eraseSectors, eraseSectorSize, h32] at *
  have hal : offset / 4096 * 4096 ≤ offset := Nat.div_mul_le_self _ _
  have hend : (offset + len + (4294967296 - 1)) % 4294967296 = offset + len - 1 := by
    omega
  rw [hend]
  have ht1 : (offset + len - 1 + 4294967296 - offset / 4096 * 4096) % 4294967296
      = offset + len - 1 - offset / 4096 * 4096 := by
    omega
  rw [ht1]
  have ht3 : (offset + len - 1 - offset / 4096 * 4096 + 4096 - 1) % 4294967296
      = offset + len - 1 - offset / 4096 * 4096 + 4096 - 1 :=
    Nat.mod_eq_of_lt (by omega)
  rw [ht3]
  refine List.map_congr_left ?_
  intro i hi
  rw [List.mem_range] at hi
  have hprod := (lt_ceil_div i _ 4096 (by omega)).mp hi
  exact Nat.mod_eq_of_lt (by omega)

theorem mem_eraseSectors (len offset a : Nat) (h : 1 ≤ len)
    (hbound : offset + len + eraseSectorSize ≤ 2 ^ 32) :
    a ∈ eraseSectors len offset ↔
      (a % eraseSectorSize = 0 ∧ offset / eraseSectorSize * eraseSectorSize ≤ a ∧
       a < offset + len - 1) := by
  rw [eraseSectors_of_no_wrap len offset h hbound]
  unfold eraseSectorSize
  simp only [List.mem_map, List.mem_range]
  have hdm := Nat.div_add_mod offset 4096
  have hmlt : offset % 4096 < 4096 := Nat.mod_lt _ (by omega)
  constructor
  · rintro ⟨i, hi, rfl⟩
    have hprod := (lt_ceil_div i _ 4096 (by omega)).mp hi
    refine ⟨?_, Nat.le_add_right _ _, ?_⟩
    · simpa using Nat.add_mul_mod_self_right (offset / 4096 * 4096) i 4096
    · have hal : offset / 4096 * 4096 ≤ offset := Nat.div_mul_le_self _ _
      omega
  · rintro ⟨hmod, hle, hlt⟩
    refine ⟨(a - offset / 4096 * 4096) / 4096, ?_, ?_⟩
    · rw [lt_ceil_div _ _ 4096 (by omega)]
      omega
    · omega

theorem chunkStarts_ge (o x : Nat) (ls : List Nat) (hx : x ∈ chunkStarts o ls) : o ≤ x := by
  induction ls generalizing o with
  | nil => simp [chunkStarts] at hx
  | cons l ls ih =>
    simp only [chunkStarts, List.mem_cons] at hx
    rcases hx with rfl | hx
    · exact le_refl _
    · exact le_trans (Nat.le_add_right _ _) (ih _ hx)

theorem chunkStarts_pairwise (o : Nat) (ls : List Nat) (hpos : ∀ l ∈ ls, 0 < l) :
    (chunkStarts o ls).Pairwise (· < ·) := by
  induction ls generalizing o with
  | nil => simp [chunkStarts]
  | cons l ls ih =>
    simp only [chunkStarts]
    refine List.Pairwise.cons ?_ (ih _ (fun x hx => hpos x (List.mem_cons_of_mem _ hx)))
    intro x hx
    have h1 := chunkStarts_ge _ _ _ hx
    have h2 := hpos l (List.mem_cons_self _ _)
    omega

/-- Claim C2, counterexample.  The code computes
`numsectors = (endoffset - alignedStart + sectorSize - 1) / sectorSize`,
which is one short of the covering count of the claim whenever
`endoffset = offset + length - 1` is itself sector aligned: the claimed
`erase(length=1, offset=0)` erasing one sector in fact erases none, and
the claimed `erase(length=1, offset=4095)` erasing two sectors (0 and
4096) in fact erases exactly one (0), as the byte range [4095, 4095]
lies inside sector 0 (also contradicting the formula stated by the claim
itself, which gives ceil(4096/4096) = 1 there). -/
theorem C2_counterexample :
    eraseSectors 1 0 = [] ∧ eraseSectors 1 4095 = [0] := by decide

/-- Claim C2, amended: with `alignedStart = floor(offset/sectorSize) * sectorSize`
and `endOffset = offset + length - 1`, the driver issues — whenever
`offset + length + sectorSize <= 2^32`, so that none of its 32-bit
`size_t` arithmetic wraps — exactly
`ceil((endOffset - alignedStart) / sectorSize)` sector-erase commands — not
`ceil((endOffset - alignedStart + 1) / sectorSize)` — at consecutive
sector-aligned addresses: the erased sectors are precisely the
sector-aligned addresses of `[alignedStart, endOffset)`, in strictly
ascending order, so the final covered byte is excluded; in particular
`erase(1, 0)` issues no erase at all, `erase(1, 4095)` erases exactly
sector 0, and `erase(8192, 4096)` erases exactly sectors 4096 and 8192.
Beyond that bound the modular wrap takes over: `erase(0xFFFFFFFF, 4095)`
wraps `endOffset` to `4093` and erases the single sector 0. -/
theorem C2_amended_erase_sectors (len offset : Nat) (h : 1 ≤ len)
    (hbound : offset + len + eraseSectorSize ≤ 2 ^ 32) :
    (∀ a, a ∈ eraseSectors len offset ↔
       (a % eraseSectorSize = 0 ∧ offset / eraseSectorSize * eraseSectorSize ≤ a ∧
        a < offset + len - 1))
    ∧ (eraseSectors len offset).length
        = (offset + len - 1 - offset / eraseSectorSize * eraseSectorSize
            + eraseSectorSize - 1) / eraseSectorSize
    ∧ (eraseSectors len offset).Pairwise (· < ·)
    ∧ eraseSectors 1 4095 = [0]
    ∧ eraseSectors 8192 4096 = [4096, 8192]
    ∧ eraseSectors 4294967295 4095 = [0] := by
  refine ⟨fun a => mem_eraseSectors len offset a h hbound, ?_, ?_,
    by decide, by decide, by decide⟩
  · rw [eraseSectors_of_no_wrap len offset h hbound]
    simp
  · rw [eraseSectors_of_no_wrap len offset h hbound, List.pairwise_map]
    refine List.Pairwise.imp ?_ (List.pairwise_lt_range _)
    intro i j hij
    have hs : 0 < eraseSectorSize := by decide
    have := (Nat.mul_lt_mul_right hs).mpr hij
    omega

theorem C2_witness :
    (1 ≤ (8192 : Nat) ∧ (4096 : Nat) + 8192 + eraseSectorSize ≤ 2 ^ 32)
    ∧ eraseSectors 8192 4096 = [4096, 8192] :=
  ⟨⟨by decide, by decide⟩,
   (C2_amended_erase_sectors 8192 4096 (by decide) (by decide)).2.2.2.2.1⟩

/-! ### Doorbell dispatcher validation (claims C1, C8) -/

/-- Claim C1, counterexample.  The doorbell-generation dispatcher performs
no end-address validation at all: a ReadBlock command with
offset = 0xFFFFFFFF, length = 2 is not rejected — the flash driver is
invoked with exactly those arguments and, on transport success, the
response is the Ok kind 0xD0 (the doorbell response-kind space does not
even contain an address-range error). -/
theorem C1_counterexample :
    dispatch { kind := 0xC3, arg0 := 0xFFFFFFFF, arg1 := 2 } { }
      = ({ kind := 0xD0 }, some (FlashCall.read 0xFFFFFFFF 2)) := by decide

/-- Claim C1, amended: the doorbell dispatcher validates only
`length <= XFLASH_BUF_SIZE` for ReadBlock/WriteBlock; any pair passing
that check is handed to the flash driver unchanged (so offset = 0xFFFFFFFF,
length = 2 reaches the hardware).  The widened 64-bit end-address check of
the claim exists only in the UART-generation dispatcher, whose
`checkAddressRange(offset, length)` accepts exactly when
`offset + length <= 0xFFFFFFFF`, the probe result is present, and a
supported device bounds `offset + length` by its size; in particular
`(0xFFFFFFFF, 2)` is rejected there as overflow. -/
theorem C1_amended_range_validation :
    (∀ (env : FlashEnv) (off len : Nat), len ≤ xflashBufSize →
       dispatch { kind := 0xC3, arg0 := off, arg1 := len } env
         = (if env.readOk then { kind := 0xD0 } else { kind := 0x82 },
            some (FlashCall.read off len))
       ∧ dispatch { kind := 0xC4, arg0 := off, arg1 := len } env
         = (if env.writeOk then { kind := 0xD0 } else { kind := 0x82 },
            some (FlashCall.write off len)))
    ∧ (∀ (info : Option XflashInfo) (off len : Nat),
        checkAddressRange info off len = true ↔
          (off + len ≤ 0xFFFFFFFF ∧
           ∃ i, info = some i ∧ (i.supported = true → off + len ≤ i.deviceSize)))
    ∧ checkAddressRange
        (some { deviceSize := 0x100000, manfId := 0xC2, devId := 0x14, supported := true })
        0xFFFFFFFF 2 = false := by
  refine ⟨?_, ?_, by decide⟩
  · intro env off len hlen
    have hlen2 : ¬ (len > xflashBufSize) := by omega
    constructor <;> simp [dispatch, hlen2]
  · intro info off len
    unfold checkAddressRange
    by_cases hgt : off + len > 0xFFFFFFFF
    · rw [if_pos hgt]
      constructor
      · intro hc
        cases hc
      · rintro ⟨hle, -⟩
        omega
    · rw [if_neg hgt]
      cases info with
      | none =>
        constructor
        · intro hc
          cases hc
        · rintro ⟨-, i, hi, -⟩
          cases hi
      | some i =>
        show (if i.supported = true ∧ off + len > i.deviceSize then false else true) = true ↔ _
        by_cases hbad : i.supported = true ∧ off + len > i.deviceSize
        · rw [if_pos hbad]
          constructor
          · intro hc
            cases hc
          · rintro ⟨hle, j, hj, hb⟩
            cases hj
            exact absurd (hb hbad.1) (by omega)
        · rw [if_neg hbad]
          constructor
          · intro _
            refine ⟨by omega, i, rfl, fun hsup => ?_⟩
            by_contra hsz
            exact hbad ⟨hsup, by omega⟩
          · intro _
            rfl

theorem C1_witness :
    (2 : Nat) ≤ xflashBufSize ∧
      dispatch { kind := 0xC3, arg0 := 0, arg1 := 2 } { }
        = ({ kind := 0xD0 }, some (FlashCall.read 0 2)) := by
  refine ⟨by decide, ?_⟩
  have h := (C1_amended_range_validation.1 { } 0 2 (by decide)).1
  simpa using h

/-- Claim C8: a ReadBlock or WriteBlock whose length exceeds the 4096-byte
transfer buffer is answered with the buffer-overflow error kind 0x83 and
the flash driver is not invoked (no SPI transaction, flash and transport
untouched). -/
theorem C8_buffer_overflow_rejection (cmd : Command) (env : FlashEnv)
    (hk : cmd.kind = 0xC3 ∨ cmd.kind = 0xC4) (hl : xflashBufSize < cmd.arg1) :
    dispatch cmd env = ({ kind := 0x83 }, none) := by
  have hl2 : cmd.arg1 > xflashBufSize := hl
  rcases hk with h | h <;> simp [dispatch, h, hl2]

theorem C8_witness :
    ((⟨0xC4, 0, 0x1001, 0⟩ : Command).kind = 0xC3 ∨ (⟨0xC4, 0, 0x1001, 0⟩ : Command).kind = 0xC4)
    ∧ xflashBufSize < (⟨0xC4, 0, 0x1001, 0⟩ : Command).arg1
    ∧ dispatch ⟨0xC4, 0, 0x1001, 0⟩ { } = ({ kind := 0x83 }, none) :=
  ⟨Or.inr rfl, by decide,
   C8_buffer_overflow_rejection ⟨0xC4, 0, 0x1001, 0⟩ { } (Or.inr rfl) (by decide)⟩

/-! ### Identify / unsupported part (claim C3) -/

/-- Claim C3, counterexample.  With a chip probing as the unsupported pair
(0xAA, 0xBB) — not in `supportedHw` — the constructor leaves the probe
cache valid, so the doorbell dispatcher answers the identify command with
the flash-info kind 0xD1 carrying the two ids, not with any
unsupported-part error (the doorbell response-kind space has none). -/
theorem C3_counterexample :
    lookupHw 0xAA 0xBB = none
    ∧ getInfo (xflashInit { standbyOk := true, probeReadOk := true,
                            manfId := 0xAA, devId := 0xBB }).1
        = some { manfId := 0xAA, devId := 0xBB }
    ∧ dispatch { kind := 0xC0 }
        { info := getInfo (xflashInit { standbyOk := true, probeReadOk := true,
                                        manfId := 0xAA, devId := 0xBB }).1 }
        = ({ kind := 0xD1, arg0 := 0xAA, arg1 := 0xBB }, none) := by decide

/-- Claim C3, amended: the doorbell dispatcher answers identify with the
flash-info kind 0xD1 carrying manufacturer and device id — regardless of
whether the part matched the table, and without any device size — and
with the flash-error kind 0x82 only when the probe itself failed.  The
behavior the claim describes belongs to the UART generation: there
`sendFlashInfo` reports a supported part as FlashInfo (0x03) with ids and
device size — 1 MiB for the table pair (0xC2, 0x14) — and an unsupported
part as ErrorUnsupported (0x82) carrying the two observed ids. -/
theorem C3_amended_identify :
    (∀ i : XflashInfo, dispatch { kind := 0xC0 } { info := some i }
        = ({ kind := 0xD1, arg0 := i.manfId, arg1 := i.devId }, none))
    ∧ dispatch { kind := 0xC0 } { info := none } = ({ kind := 0x82 }, none)
    ∧ lookupHw 0xC2 0x14 = some { deviceSize := 0x100000, manfId := 0xC2, devId := 0x14 }
    ∧ (∀ i : XflashInfo, i.supported = true →
        sendFlashInfo i
          = { type := 0x03, arg0 := i.manfId, arg1 := i.devId, arg2 := i.deviceSize })
    ∧ (∀ i : XflashInfo, i.supported = false →
        sendFlashInfo i = { type := 0x82, arg0 := i.manfId, arg1 := i.devId }) := by
  refine ⟨?_, by decide, by decide, ?_, ?_⟩
  · intro i
    simp [dispatch]
  · intro i hi
    simp [sendFlashInfo, hi]
  · intro i hi
    simp [sendFlashInfo, hi]

theorem C3_witness :
    sendFlashInfo { deviceSize := 0x100000, manfId := 0xC2, devId := 0x14, supported := true }
      = { type := 0x03, arg0 := 0xC2, arg1 := 0x14, arg2 := 0x100000 } :=
  C3_amended_identify.2.2.2.1 _ rfl

/-! ### Unsupported driver state (claim C9) -/

/-- Claim C9, counterexample.  After a failed construction-time probe
(`powerStandby` fails, so `getInfo` reports absent), a subsequent `read`
with a healthy transport still performs its SPI transactions and returns
success: the driver has no fail-fast path, contradicting the claim that
every data operation then fails without performing the transfer. -/
theorem C9_counterexample :
    getInfo (xflashInit { standbyOk := false, probeReadOk := true,
                          manfId := 0xC2, devId := 0x15 }).1 = none
    ∧ (xflashRead (xflashInit { standbyOk := false, probeReadOk := true,
                                manfId := 0xC2, devId := 0x15 }).1 0 16 true true).1 = true
    ∧ (xflashRead (xflashInit { standbyOk := false, probeReadOk := true,
                                manfId := 0xC2, devId := 0x15 }).1 0 16 true true).2 ≠ [] := by
  decide

/-- Claim C9, amended: a failed probe powers the chip back down and leaves
the cache invalid (`getInfo` absent); a successful probe of an id pair
missing from the table also powers the chip down but keeps the cache
valid with `supported = false`.  The unsupported state is permanent but
not consulted by data operations: `read` behaves identically on any two
driver states, always touches the bus, and succeeds exactly when its SPI
transactions succeed. -/
theorem C9_amended_unsupported_state :
    (∀ env : ProbeEnv, env.standbyOk = false → xflashInit env = ({ }, true))
    ∧ (∀ env : ProbeEnv, env.standbyOk = true → env.probeReadOk = true →
        lookupHw env.manfId env.devId = none →
        xflashInit env
          = ({ info := { manfId := env.manfId, devId := env.devId }, valid := true }, true))
    ∧ (∀ st st2 : XflashSt, ∀ off len w r,
        xflashRead st off len w r = xflashRead st2 off len w r)
    ∧ (∀ (st : XflashSt) (off len : Nat) (w r : Bool),
        (xflashRead st off len w r).2 ≠ [] ∧ (xflashRead st off len w r).1 = (w && r)) := by
  refine ⟨?_, ?_, ?_, ?_⟩
  · intro env h
    simp [xflashInit, h]
  · intro env h1 h2 h3
    simp [xflashInit, h1, h2, h3]
  · intro st st2 off len w r
    rfl
  · intro st off len w r
    cases w <;> cases r <;> simp [xflashRead]

theorem C9_witness :
    xflashInit { standbyOk := false, probeReadOk := false, manfId := 0, devId := 0 }
      = ({ }, true) :=
  C9_amended_unsupported_state.1 _ rfl

/-! ### Page-program chunking (claim C4) -/

theorem interimLen_pos (buf : List Nat) (offset : Nat) (h : buf ≠ []) :
    0 < interimLen buf offset := by
  have hpos : 0 < buf.length := List.length_pos.mpr h
  have : offset % programPageSize < programPageSize :=
    Nat.mod_lt _ (by simp [programPageSize])
  simp only [interimLen, Nat.lt_min]
  omega

theorem interimLen_le (buf : List Nat) (offset : Nat) :
    interimLen buf offset ≤ buf.length :=
  Nat.min_le_right _ _

theorem writeTrace_nil (offset : Nat) : writeTrace [] offset = [] := by
  rw [writeTrace]
  simp

theorem writeTrace_ne (buf : List Nat) (offset : Nat) (h : buf ≠ []) :
    writeTrace buf offset =
      WriteEv.waitReady :: WriteEv.writeEnable ::
        WriteEv.pageProgram offset (buf.take (interimLen buf offset)) ::
        writeTrace (buf.drop (interimLen buf offset)) (offset + interimLen buf offset) := by
  rw [writeTrace]
  simp [h]

theorem writeChunks_nil (offset : Nat) : writeChunks [] offset = [] := by
  simp [writeChunks, writeTrace_nil]

theorem writeChunks_ne (buf : List Nat) (offset : Nat) (h : buf ≠ []) :
    writeChunks buf offset =
      (offset, buf.take (interimLen buf offset)) ::
        writeChunks (buf.drop (interimLen buf offset)) (offset + interimLen buf offset) := by
  rw [writeChunks, writeTrace_ne buf offset h]
  simp [writeChunks, List.filterMap_cons]

theorem writeChunks_struct (n : Nat) :
    ∀ (buf : List Nat) (offset : Nat), buf.length ≤ n →
      ((writeChunks buf offset).map Prod.snd).flatten = buf
      ∧ (writeChunks buf offset).map Prod.fst
          = chunkStarts offset ((writeChunks buf offset).map (fun c => c.2.length))
      ∧ (∀ c ∈ writeChunks buf offset,
          c.2 ≠ [] ∧ c.1 % programPageSize + c.2.length ≤ programPageSize)
      ∧ writeTrace buf offset
          = (writeChunks buf offset).flatMap
              (fun c => [WriteEv.waitReady, WriteEv.writeEnable,
                         WriteEv.pageProgram c.1 c.2]) := by
  induction n with
  | zero =>
    intro buf offset hlen
    have hb : buf = [] := List.eq_nil_of_length_eq_zero (by omega)
    subst hb
    simp [writeChunks_nil, writeTrace_nil, chunkStarts]
  | succ n ih =>
    intro buf offset hlen
    by_cases hb : buf = []
    · subst hb
      simp [writeChunks_nil, writeTrace_nil, chunkStarts]
    · have hil1 : 0 < interimLen buf offset := interimLen_pos buf offset hb
      have hil2 : interimLen buf offset ≤ buf.length := interimLen_le buf offset
      have hblen : 0 < buf.length := List.length_pos.mpr hb
      have hdrop : (buf.drop (interimLen buf offset)).length ≤ n := by
        simp only [List.length_drop]
        omega
      obtain ⟨ih1, ih2, ih3, ih4⟩ := ih (buf.drop (interimLen buf offset))
        (offset + interimLen buf offset) hdrop
      have htake : (buf.take (interimLen buf offset)).length = interimLen buf offset := by
        simp [List.length_take, hil2]
      rw [writeChunks_ne buf offset hb]
      refine ⟨?_, ?_, ?_, ?_⟩
      · simp only [List.map_cons, List.flatten_cons, ih1]
        exact List.take_append_drop _ _
      · simp only [List.map_cons, chunkStarts, htake, ih2]
      · intro c hc
        rcases List.mem_cons.mp hc with rfl | hc2
        · constructor
          · intro hcon
            have := congrArg List.length hcon
            simp [htake] at this
            omega
          · have hmod : offset % programPageSize < programPageSize :=
              Nat.mod_lt _ (by simp [programPageSize])
            have : interimLen buf offset ≤ programPageSize - offset % programPageSize :=
              Nat.min_le_left _ _
            simp only [htake]
            omega
        · exact ih3 c hc2
      · rw [writeTrace_ne buf offset hb]
        simp only [List.flatMap_cons, ih4]
        rfl

/-- Claim C4: `Xflash::write` splits the buffer into page-program chunks
issued in ascending offset order; chunk payloads concatenate back to
exactly the input bytes, each chunk starts where the previous ended
(first chunk at the requested offset), no chunk is empty or crosses a
256-byte program-page boundary, and the bus trace consists of a
wait-for-ready followed by a write-enable immediately before every single
page-program instruction.  The hypothesis keeps the offsets inside the
32-bit range the C++ `size_t` arithmetic computes with. -/
theorem C4_write_page_chunking (buf : List Nat) (offset : Nat)
    (h : offset + buf.length ≤ 2 ^ 32) :
    ((writeChunks buf offset).map Prod.snd).flatten = buf
    ∧ (writeChunks buf offset).map Prod.fst
        = chunkStarts offset ((writeChunks buf offset).map (fun c => c.2.length))
    ∧ (∀ c ∈ writeChunks buf offset,
        c.2 ≠ [] ∧ c.1 % programPageSize + c.2.length ≤ programPageSize)
    ∧ writeTrace buf offset
        = (writeChunks buf offset).flatMap
            (fun c => [WriteEv.waitReady, WriteEv.writeEnable,
                       WriteEv.pageProgram c.1 c.2])
    ∧ ((writeChunks buf offset).map Prod.fst).Pairwise (· < ·) := by
  obtain ⟨h1, h2, h3, h4⟩ := writeChunks_struct buf.length buf offset (le_refl _)
  refine ⟨h1, h2, h3, h4, ?_⟩
  rw [h2]
  refine chunkStarts_pairwise _ _ ?_
  intro l hl
  rcases List.mem_map.mp hl with ⟨c, hc, rfl⟩
  have := (h3 c hc).1
  have : 0 < c.2.length := List.length_pos.mpr this
  omega

theorem C4_witness :
    (200 : Nat) + (List.replicate 300 7).length ≤ 2 ^ 32
    ∧ ((writeChunks (List.replicate 300 7) 200).map Prod.snd).flatten
        = List.replicate 300 7 :=
  ⟨by norm_num,
   (C4_write_page_chunking (List.replicate 300 7) 200 (by norm_num)).1⟩

/-! ### Doorbell server round trip (claim C7) -/

theorem waitForCommand_shape (pending : List Command) :
    ∀ (c : Command) (evs : List SrvEv) (rest : List Command),
      waitForCommand pending = some (c, evs, rest) →
      recognized c.kind = true
      ∧ ∃ k, evs = List.replicate k SrvEv.clearCmdKind
                ++ [SrvEv.copyCmd c, SrvEv.clearCmdKind] := by
  induction pending with
  | nil =>
    intro c evs rest h
    simp [waitForCommand] at h
  | cons hd tl ih =>
    intro c evs rest h
    unfold waitForCommand at h
    by_cases hr : recognized hd.kind = true
    · rw [if_pos hr] at h
      simp only [Option.some.injEq, Prod.mk.injEq] at h
      obtain ⟨rfl, rfl, rfl⟩ := h
      exact ⟨hr, 0, by simp⟩
    · rw [if_neg hr] at h
      cases hw : waitForCommand tl with
      | none =>
        rw [hw] at h
        cases h
      | some trip =>
        obtain ⟨c2, evs2, rest2⟩ := trip
        rw [hw] at h
        simp only [Option.some.injEq, Prod.mk.injEq] at h
        obtain ⟨rfl, rfl, rfl⟩ := h
        obtain ⟨hrec, k, hk⟩ := ih c2 evs2 rest2 hw
        exact ⟨hrec, k + 1, by simp [hk, List.replicate_succ]⟩

/-- Claim C7: one iteration of the doorbell server, given a pending
command stream whose busy-wait terminates, accepts exactly one
recognized command and produces exactly one response for it: every
examined command is acknowledged by clearing `cmd.kind` (the accepted one
after being copied out in full), the iteration trace ends with the three
`rsp.arg` stores followed by the single `rsp.kind` store and then the
busy-wait for the controller to consume the response, and no response
store occurs anywhere earlier in the iteration. -/
theorem C7_server_round_trip (pending : List Command) (env : FlashEnv)
    (c : Command) (evs : List SrvEv) (rest : List Command)
    (h : waitForCommand pending = some (c, evs, rest)) :
    serverIteration pending env
      = some (evs ++ sendResponseEvents (dispatch c env).1, rest)
    ∧ recognized c.kind = true
    ∧ (∃ k, evs = List.replicate k SrvEv.clearCmdKind
              ++ [SrvEv.copyCmd c, SrvEv.clearCmdKind])
    ∧ sendResponseEvents (dispatch c env).1
        = [SrvEv.writeRspArg 0 (dispatch c env).1.arg0,
           SrvEv.writeRspArg 1 (dispatch c env).1.arg1,
           SrvEv.writeRspArg 2 (dispatch c env).1.arg2,
           SrvEv.writeRspKind (dispatch c env).1.kind,
           SrvEv.waitRspConsumed]
    ∧ evs.countP respTrigger = 0
    ∧ (evs ++ sendResponseEvents (dispatch c env).1).countP respTrigger = 1 := by
  obtain ⟨hrec, k, hk⟩ := waitForCommand_shape pending c evs rest h
  have hevs0 : evs.countP respTrigger = 0 := by
    rw [hk]
    rw [List.countP_eq_zero]
    intro e he
    rcases List.mem_append.mp he with h1 | h2
    · rw [List.eq_of_mem_replicate h1]
      simp [respTrigger]
    · rcases List.mem_cons.mp h2 with rfl | h3
      · simp [respTrigger]
      · rcases List.mem_cons.mp h3 with rfl | h4
        · simp [respTrigger]
        · cases h4
  refine ⟨?_, hrec, ⟨k, hk⟩, rfl, hevs0, ?_⟩
  · simp [serverIteration, h]
  · rw [List.countP_append, hevs0]
    simp [sendResponseEvents, List.countP_cons, respTrigger]

theorem C7_witness :
    waitForCommand [⟨0x99, 0, 0, 0⟩, ⟨0xC2, 0, 0, 0⟩]
      = some (⟨0xC2, 0, 0, 0⟩,
              [SrvEv.clearCmdKind, SrvEv.copyCmd ⟨0xC2, 0, 0, 0⟩, SrvEv.clearCmdKind], [])
    ∧ ([SrvEv.clearCmdKind, SrvEv.copyCmd ⟨0xC2, 0, 0, 0⟩, SrvEv.clearCmdKind]
        ++ sendResponseEvents (dispatch ⟨0xC2, 0, 0, 0⟩ { }).1).countP respTrigger = 1 :=
  ⟨by decide,
   (C7_server_round_trip [⟨0x99, 0, 0, 0⟩, ⟨0xC2, 0, 0, 0⟩] { } ⟨0xC2, 0, 0, 0⟩
      [SrvEv.clearCmdKind, SrvEv.copyCmd ⟨0xC2, 0, 0, 0⟩, SrvEv.clearCmdKind] []
      (by decide)).2.2.2.2.2⟩

/-! ### Paired acquire/release restoration (claim C5) -/

theorem updD_self (f : Domain → Nat) (d : Domain) (v : Nat) : updD f d v d = v := by
  simp [updD]

theorem updD_cancel (f : Domain → Nat) (d : Domain) (v : Nat) (h : v = f d) :
    updD f d v = f := by
  funext d2
  simp only [updD]
  split
  · rename_i h2
    rw [h, h2]
  · rfl

theorem updD_updD (f : Domain → Nat) (d : Domain) (v w : Nat) :
    updD (updD f d v) d w = updD f d w := by
  funext d2
  simp only [updD]
  split <;> rfl

theorem updP_self (f : Periph → Nat) (p : Periph) (v : Nat) : updP f p v p = v := by
  simp [updP]

theorem updP_cancel (f : Periph → Nat) (p : Periph) (v : Nat) (h : v = f p) :
    updP f p v = f := by
  funext p2
  simp only [updP]
  split
  · rename_i h2
    rw [h, h2]
  · rfl

theorem updP_updP (f : Periph → Nat) (p : Periph) (v w : Nat) :
    updP (updP f p v) p w = updP f p w := by
  funext p2
  simp only [updP]
  split <;> rfl

theorem updDB_cancel (f : Domain → Bool) (d : Domain) (v : Bool) (h : v = f d) :
    updDB f d v = f := by
  funext d2
  simp only [updDB]
  split
  · rename_i h2
    rw [h, h2]
  · rfl

theorem updDB_updDB (f : Domain → Bool) (d : Domain) (v w : Bool) :
    updDB (updDB f d v) d w = updDB f d w := by
  funext d2
  simp only [updDB]
  split <;> rfl

theorem updPB_cancel (f : Periph → Bool) (p : Periph) (v : Bool) (h : v = f p) :
    updPB f p v = f := by
  funext p2
  simp only [updPB]
  split
  · rename_i h2
    rw [h, h2]
  · rfl

theorem updPB_updPB (f : Periph → Bool) (p : Periph) (v w : Bool) :
    updPB (updPB f p v) p w = updPB f p w := by
  funext p2
  simp only [updPB]
  split <;> rfl

theorem setDomainDep_periphCount (S : PState) (d : Domain) :
    (setDomainDep S d).periphCount = S.periphCount := by
  unfold setDomainDep
  split
  · rfl
  · split <;> rfl

theorem setDomainDep_periphOn (S : PState) (d : Domain) :
    (setDomainDep S d).periphOn = S.periphOn := by
  unfold setDomainDep
  split
  · rfl
  · split <;> rfl

theorem clearDomainDep_periphCount (S : PState) (d : Domain) :
    (clearDomainDep S d).periphCount = S.periphCount := by
  unfold clearDomainDep
  split
  · rfl
  · split <;> rfl

theorem clearDomainDep_periphOn (S : PState) (d : Domain) :
    (clearDomainDep S d).periphOn = S.periphOn := by
  unfold clearDomainDep
  split
  · rfl
  · split <;> rfl

theorem setDomainDep_storeCount (S : PState) (p : Periph) (v : Nat) (d : Domain) :
    setDomainDep (storePeriphCount S p v) d = storePeriphCount (setDomainDep S d) p v := by
  unfold setDomainDep storePeriphCount
  dsimp only
  split
  · rfl
  · split <;> rfl

theorem setDomainDep_storeOn (S : PState) (p : Periph) (v : Bool) (d : Domain) :
    setDomainDep (storePeriphOn S p v) d = storePeriphOn (setDomainDep S d) p v := by
  unfold setDomainDep storePeriphOn
  dsimp only
  split
  · rfl
  · split <;> rfl

theorem clearDomainDep_storeCount (S : PState) (p : Periph) (v : Nat) (d : Domain) :
    clearDomainDep (storePeriphCount S p v) d
      = storePeriphCount (clearDomainDep S d) p v := by
  unfold clearDomainDep storePeriphCount
  dsimp only
  split
  · rfl
  · split <;> rfl

theorem clearDomainDep_storeOn (S : PState) (p : Periph) (v : Bool) (d : Domain) :
    clearDomainDep (storePeriphOn S p v) d = storePeriphOn (clearDomainDep S d) p v := by
  unfold clearDomainDep storePeriphOn
  dsimp only
  split
  · rfl
  · split <;> rfl

/-- The domain half of the hardware/counter coupling. -/
theorem clear_set_domain (S : PState) (d : Domain)
    (hsat : d = Domain.None ∨ S.domainCount d ≠ maxDepCount)
    (hinv : ∀ d2, S.domainOn d2 = decide (0 < S.domainCount d2)) :
    clearDomainDep (setDomainDep S d) d = S := by
  by_cases hn : d = Domain.None
  · simp [setDomainDep, clearDomainDep, hn]
  · have hns : S.domainCount d ≠ maxDepCount := by
      rcases hsat with h | h
      · exact absurd h hn
      · exact h
    unfold setDomainDep
    rw [if_neg hn, if_neg hns]
    by_cases h0 : S.domainCount d = 0
    · rw [if_pos (by omega)]
      unfold clearDomainDep
      dsimp only
      rw [if_neg hn, if_neg (by rw [updD_self]; omega)]
      rw [if_pos (by rw [updD_self]; omega)]
      have hcnt : updD (updD S.domainCount d (S.domainCount d + 1)) d
          (updD S.domainCount d (S.domainCount d + 1) d - 1) = S.domainCount := by
        rw [updD_self, updD_updD]
        exact updD_cancel _ _ _ (by omega)
      have hon : updDB (updDB S.domainOn d true) d false = S.domainOn := by
        rw [updDB_updDB]
        refine updDB_cancel _ _ _ ?_
        rw [hinv d]
        simp [h0]
      ext : 1 <;> simp only [hcnt, hon]
    · rw [if_neg (by omega)]
      unfold clearDomainDep
      dsimp only
      rw [if_neg hn, if_neg (by rw [updD_self]; omega)]
      rw [if_neg (by rw [updD_self]; omega)]
      have hcnt : updD (updD S.domainCount d (S.domainCount d + 1)) d
          (updD S.domainCount d (S.domainCount d + 1) d - 1) = S.domainCount := by
        rw [updD_self, updD_updD]
        exact updD_cancel _ _ _ (by omega)
      ext : 1 <;> simp only [hcnt]

theorem updD_other (f : Domain → Nat) (d d2 : Domain) (v : Nat) (h : d2 ≠ d) :
    updD f d v d2 = f d2 := by
  simp [updD, h]

theorem updP_other (f : Periph → Nat) (p p2 : Periph) (v : Nat) (h : p2 ≠ p) :
    updP f p v p2 = f p2 := by
  simp [updP, h]

theorem updDB_self (f : Domain → Bool) (d : Domain) (v : Bool) : updDB f d v d = v := by
  simp [updDB]

theorem updDB_other (f : Domain → Bool) (d d2 : Domain) (v : Bool) (h : d2 ≠ d) :
    updDB f d v d2 = f d2 := by
  simp [updDB, h]

theorem updPB_self (f : Periph → Bool) (p : Periph) (v : Bool) : updPB f p v p = v := by
  simp [updPB]

theorem updPB_other (f : Periph → Bool) (p p2 : Periph) (v : Bool) (h : p2 ≠ p) :
    updPB f p v p2 = f p2 := by
  simp [updPB, h]

theorem satHit_setD_false (S : PState) (d : Domain) (h : satHit S (Op.setD d) = false) :
    d = Domain.None ∨ S.domainCount d ≠ maxDepCount := by
  by_cases hn : d = Domain.None
  · exact Or.inl hn
  · right
    intro hc
    simp [satHit, hn, hc] at h

theorem storePeriphCount_domainCount (S : PState) (p : Periph) (v : Nat) :
    (storePeriphCount S p v).domainCount = S.domainCount := rfl

theorem storePeriphCount_domainOn (S : PState) (p : Periph) (v : Nat) :
    (storePeriphCount S p v).domainOn = S.domainOn := rfl

theorem storePeriphCount_periphCount (S : PState) (p : Periph) (v : Nat) :
    (storePeriphCount S p v).periphCount = updP S.periphCount p v := rfl

theorem storePeriphCount_periphOn (S : PState) (p : Periph) (v : Nat) :
    (storePeriphCount S p v).periphOn = S.periphOn := rfl

theorem storePeriphOn_domainCount (S : PState) (p : Periph) (v : Bool) :
    (storePeriphOn S p v).domainCount = S.domainCount := rfl

theorem storePeriphOn_domainOn (S : PState) (p : Periph) (v : Bool) :
    (storePeriphOn S p v).domainOn = S.domainOn := rfl

theorem storePeriphOn_periphCount (S : PState) (p : Periph) (v : Bool) :
    (storePeriphOn S p v).periphCount = S.periphCount := rfl

theorem storePeriphOn_periphOn (S : PState) (p : Periph) (v : Bool) :
    (storePeriphOn S p v).periphOn = updPB S.periphOn p v := rfl

theorem satHit_setP_false (S : PState) (p : Periph) (hn : p ≠ Periph.None)
    (h : satHit S (Op.setP p) = false) :
    S.periphCount p ≠ maxDepCount
    ∧ (S.periphCount p = 0 →
        parentOf p = Domain.None ∨ S.domainCount (parentOf p) ≠ maxDepCount) := by
  simp only [satHit] at h
  rw [if_neg hn] at h
  by_cases hm : S.periphCount p = maxDepCount
  · rw [if_pos hm] at h
    cases h
  · refine ⟨hm, ?_⟩
    intro h0
    rw [if_neg hm, if_pos h0] at h
    by_cases hpn : parentOf p = Domain.None
    · exact Or.inl hpn
    · right
      intro hc
      simp [hpn, hc] at h

/-- A peripheral release exactly undoes a matching peripheral acquire
(including the transitive parent-domain acquire), provided no saturated
counter was met and the hardware state was coupled beforehand. -/
theorem clear_set_periph (S : PState) (p : Periph)
    (hsat : satHit S (Op.setP p) = false) (hinv : InvHw S) :
    clearPeriphDep (setPeriphDep S p) p = S := by
  by_cases hn : p = Periph.None
  · simp [setPeriphDep, clearPeriphDep, hn]
  · obtain ⟨hns, hpar⟩ := satHit_setP_false S p hn hsat
    unfold setPeriphDep
    rw [if_neg hn, if_neg hns]
    by_cases h0 : S.periphCount p = 0
    · rw [if_pos (by omega)]
      rw [setDomainDep_storeCount]
      unfold clearPeriphDep
      rw [if_neg hn]
      rw [storePeriphOn_periphCount, storePeriphCount_periphCount, updP_self]
      rw [if_neg (by omega), if_pos (by omega)]
      rw [clearDomainDep_storeOn, clearDomainDep_storeCount, clearDomainDep_storeOn,
          clearDomainDep_storeCount]
      rw [clear_set_domain S (parentOf p) (hpar h0) hinv.1]
      ext : 1
      · rw [storePeriphOn_domainCount, storePeriphCount_domainCount,
            storePeriphOn_domainCount, storePeriphCount_domainCount]
      · rw [storePeriphOn_periphCount, storePeriphCount_periphCount,
            storePeriphOn_periphCount, storePeriphCount_periphCount, updP_updP]
        exact updP_cancel _ _ _ (by omega)
      · rw [storePeriphOn_domainOn, storePeriphCount_domainOn,
            storePeriphOn_domainOn, storePeriphCount_domainOn]
      · rw [storePeriphOn_periphOn, storePeriphCount_periphOn,
            storePeriphOn_periphOn, storePeriphCount_periphOn, updPB_updPB]
        exact updPB_cancel _ _ _ (by rw [hinv.2 p, h0]; simp)
    · rw [if_neg (by omega)]
      unfold clearPeriphDep
      rw [if_neg hn]
      rw [storePeriphCount_periphCount, updP_self]
      rw [if_neg (by omega), if_neg (by omega)]
      ext : 1
      · rw [storePeriphCount_domainCount, storePeriphCount_domainCount]
      · rw [storePeriphCount_periphCount, storePeriphCount_periphCount, updP_updP]
        exact updP_cancel _ _ _ (by omega)
      · rw [storePeriphCount_domainOn, storePeriphCount_domainOn]
      · rw [storePeriphCount_periphOn, storePeriphCount_periphOn]

theorem invD_setDomain (S : PState) (d : Domain)
    (h : ∀ d2, S.domainOn d2 = decide (0 < S.domainCount d2)) :
    ∀ d2, (setDomainDep S d).domainOn d2
      = decide (0 < (setDomainDep S d).domainCount d2) := by
  intro d2
  unfold setDomainDep
  split
  · exact h d2
  · split
    · exact h d2
    · dsimp only
      by_cases hd2 : d2 = d
      · subst hd2
        rw [updD_self]
        by_cases hc : S.domainCount d2 + 1 = 1
        · rw [if_pos hc, updDB_self]
          symm
          rw [decide_eq_true_eq]
          omega
        · rw [if_neg hc, h d2]
          exact decide_eq_decide.mpr (by omega)
      · rw [updD_other _ _ _ _ hd2]
        split
        · rw [updDB_other _ _ _ _ hd2]
          exact h d2
        · exact h d2

theorem invD_clearDomain (S : PState) (d : Domain)
    (h : ∀ d2, S.domainOn d2 = decide (0 < S.domainCount d2)) :
    ∀ d2, (clearDomainDep S d).domainOn d2
      = decide (0 < (clearDomainDep S d).domainCount d2) := by
  intro d2
  unfold clearDomainDep
  split
  · exact h d2
  · split
    · exact h d2
    · dsimp only
      by_cases hd2 : d2 = d
      · subst hd2
        rw [updD_self]
        by_cases hc : S.domainCount d2 - 1 = 0
        · rw [if_pos hc, updDB_self]
          symm
          rw [decide_eq_false_iff_not]
          omega
        · rw [if_neg hc, h d2]
          exact decide_eq_decide.mpr (by omega)
      · rw [updD_other _ _ _ _ hd2]
        split
        · rw [updDB_other _ _ _ _ hd2]
          exact h d2
        · exact h d2

theorem invHw_setDomain (S : PState) (d : Domain) (h : InvHw S) :
    InvHw (setDomainDep S d) := by
  refine ⟨invD_setDomain S d h.1, ?_⟩
  intro p2
  rw [setDomainDep_periphOn, setDomainDep_periphCount]
  exact h.2 p2

theorem invHw_clearDomain (S : PState) (d : Domain) (h : InvHw S) :
    InvHw (clearDomainDep S d) := by
  refine ⟨invD_clearDomain S d h.1, ?_⟩
  intro p2
  rw [clearDomainDep_periphOn, clearDomainDep_periphCount]
  exact h.2 p2

theorem invHw_setPeriph (S : PState) (p : Periph) (h : InvHw S) :
    InvHw (setPeriphDep S p) := by
  unfold setPeriphDep
  split
  · exact h
  · split
    · exact h
    · split
      · constructor
        · intro d2
          rw [storePeriphOn_domainOn, storePeriphOn_domainCount]
          exact invD_setDomain (storePeriphCount S p (S.periphCount p + 1)) (parentOf p)
            (fun d3 => h.1 d3) d2
        · intro p2
          rw [storePeriphOn_periphOn, storePeriphOn_periphCount, setDomainDep_periphOn,
              setDomainDep_periphCount, storePeriphCount_periphOn,
              storePeriphCount_periphCount]
          by_cases hp2 : p2 = p
          · subst hp2
            rw [updPB_self, updP_self]
            symm
            rw [decide_eq_true_eq]
            omega
          · rw [updPB_other _ _ _ _ hp2, updP_other _ _ _ _ hp2]
            exact h.2 p2
      · constructor
        · intro d2
          rw [storePeriphCount_domainOn, storePeriphCount_domainCount]
          exact h.1 d2
        · intro p2
          rw [storePeriphCount_periphOn, storePeriphCount_periphCount]
          by_cases hp2 : p2 = p
          · subst hp2
            rw [updP_self, h.2 p2]
            exact decide_eq_decide.mpr (by omega)
          · rw [updP_other _ _ _ _ hp2]
            exact h.2 p2

theorem invHw_clearPeriph (S : PState) (p : Periph) (h : InvHw S) :
    InvHw (clearPeriphDep S p) := by
  unfold clearPeriphDep
  split
  · exact h
  · split
    · exact h
    · split
      · rename_i h1 h2 h3
        constructor
        · refine invD_clearDomain _ (parentOf p) ?_
          intro d2
          rw [storePeriphOn_domainOn, storePeriphOn_domainCount,
              storePeriphCount_domainOn, storePeriphCount_domainCount]
          exact h.1 d2
        · intro p2
          rw [clearDomainDep_periphOn, clearDomainDep_periphCount,
              storePeriphOn_periphOn, storePeriphOn_periphCount,
              storePeriphCount_periphOn, storePeriphCount_periphCount]
          by_cases hp2 : p2 = p
          · subst hp2
            rw [updPB_self, updP_self]
            symm
            rw [decide_eq_false_iff_not]
            omega
          · rw [updPB_other _ _ _ _ hp2, updP_other _ _ _ _ hp2]
            exact h.2 p2
      · constructor
        · intro d2
          rw [storePeriphCount_domainOn, storePeriphCount_domainCount]
          exact h.1 d2
        · intro p2
          rw [storePeriphCount_periphOn, storePeriphCount_periphCount]
          by_cases hp2 : p2 = p
          · subst hp2
            rw [updP_self, h.2 p2]
            rename_i h1 h2 h3
            exact decide_eq_decide.mpr (by omega)
          · rw [updP_other _ _ _ _ hp2]
            exact h.2 p2

theorem invHw_execOp (S : PState) (o : Op) (h : InvHw S) : InvHw (execOp S o) := by
  cases o with
  | setD d => exact invHw_setDomain S d h
  | clearD d => exact invHw_clearDomain S d h
  | setP p => exact invHw_setPeriph S p h
  | clearP p => exact invHw_clearPeriph S p h

theorem run_cons (S : PState) (o : Op) (l : List Op) :
    run S (o :: l) = run (execOp S o) l := rfl

theorem run_append (S : PState) (l1 l2 : List Op) :
    run S (l1 ++ l2) = run (run S l1) l2 := by
  simp [run, List.foldl_append]

theorem satFree_cons (S : PState) (o : Op) (l : List Op) :
    satFree S (o :: l) = true ↔
      satHit S o = false ∧ satFree (execOp S o) l = true := by
  simp [satFree, Bool.and_eq_true, Bool.not_eq_true']

theorem satFree_append (S : PState) (l1 l2 : List Op) :
    satFree S (l1 ++ l2) = (satFree S l1 && satFree (run S l1) l2) := by
  induction l1 generalizing S with
  | nil => simp [satFree, run]
  | cons o l ih =>
    simp only [List.cons_append, satFree, List.append_eq]
    rw [ih (execOp S o), run_cons, Bool.and_assoc]

/-- Claim C5, counterexample.  From a legitimately coupled state in which
the Serial domain counter is already saturated at 255, the paired
sequence acquire-then-release does not restore the counter: the acquire
is a silent no-op (saturation) but the release still decrements, leaving
the counter at 254. -/
theorem C5_counterexample :
    Balanced [Op.setD Domain.Serial, Op.clearD Domain.Serial]
    ∧ InvHw { domainCount := fun d => if d = Domain.Serial then 255 else 0,
              periphCount := fun _ => 0,
              domainOn := fun d => decide (d = Domain.Serial),
              periphOn := fun _ => false }
    ∧ (run { domainCount := fun d => if d = Domain.Serial then 255 else 0,
             periphCount := fun _ => 0,
             domainOn := fun d => decide (d = Domain.Serial),
             periphOn := fun _ => false }
         [Op.setD Domain.Serial, Op.clearD Domain.Serial]).domainCount Domain.Serial
        = 254 := by
  refine ⟨Balanced.wrapD Domain.Serial [] Balanced.nil, ?_, ?_⟩
  · constructor
    · intro d
      cases d <;> rfl
    · intro p
      rfl
  · rfl

/-- Claim C5, amended: any sequence of paired acquire/release operations,
in any nesting order, restores every dependency counter and the hardware
power state to their pre-sequence values, provided the sequence never
attempts an acquire on a counter that is already saturated (a saturated
acquire is a silent no-op whose paired release still decrements, so
restoration fails there — see the counterexample) and the starting state
couples hardware state to the counters as every state reachable from
reset does. -/
theorem C5_amended_paired_restoration (S : PState) (ops : List Op)
    (hinv : InvHw S) (hbal : Balanced ops) (hsf : satFree S ops = true) :
    run S ops = S := by
  revert hinv hsf
  induction hbal generalizing S with
  | nil =>
    intro _ _
    rfl
  | wrapD d b hb ih =>
    intro hinv hsf
    obtain ⟨h1, h2⟩ := (satFree_cons S (Op.setD d) (b ++ [Op.clearD d])).mp hsf
    have hsplit : satFree (execOp S (Op.setD d)) b = true := by
      have hap := satFree_append (execOp S (Op.setD d)) b [Op.clearD d]
      rw [h2] at hap
      have hap2 := hap.symm
      simp only [Bool.and_eq_true] at hap2
      exact hap2.1
    have hinv1 : InvHw (execOp S (Op.setD d)) := invHw_execOp S _ hinv
    have hrunb : run (execOp S (Op.setD d)) b = execOp S (Op.setD d) :=
      ih _ hinv1 hsplit
    show run (execOp S (Op.setD d)) (b ++ [Op.clearD d]) = S
    rw [run_append, hrunb]
    show execOp (execOp S (Op.setD d)) (Op.clearD d) = S
    exact clear_set_domain S d (satHit_setD_false S d h1) hinv.1
  | wrapP p b hb ih =>
    intro hinv hsf
    obtain ⟨h1, h2⟩ := (satFree_cons S (Op.setP p) (b ++ [Op.clearP p])).mp hsf
    have hsplit : satFree (execOp S (Op.setP p)) b = true := by
      have hap := satFree_append (execOp S (Op.setP p)) b [Op.clearP p]
      rw [h2] at hap
      have hap2 := hap.symm
      simp only [Bool.and_eq_true] at hap2
      exact hap2.1
    have hinv1 : InvHw (execOp S (Op.setP p)) := invHw_execOp S _ hinv
    have hrunb : run (execOp S (Op.setP p)) b = execOp S (Op.setP p) :=
      ih _ hinv1 hsplit
    show run (execOp S (Op.setP p)) (b ++ [Op.clearP p]) = S
    rw [run_append, hrunb]
    show execOp (execOp S (Op.setP p)) (Op.clearP p) = S
    exact clear_set_periph S p h1 hinv
  | app b1 b2 hb1 hb2 ih1 ih2 =>
    intro hinv hsf
    have hsplit := satFree_append S b1 b2
    rw [hsf] at hsplit
    have hsplit2 := hsplit.symm
    simp only [Bool.and_eq_true] at hsplit2
    have hrun1 : run S b1 = S := ih1 S hinv hsplit2.1
    rw [run_append, hrun1]
    rw [hrun1] at hsplit2
    exact ih2 S hinv hsplit2.2

theorem C5_witness :
    InvHw initState
    ∧ satFree initState [Op.setP Periph.Gpio, Op.clearP Periph.Gpio] = true
    ∧ run initState [Op.setP Periph.Gpio, Op.clearP Periph.Gpio] = initState := by
  refine ⟨⟨fun d => rfl, fun p => rfl⟩, rfl, ?_⟩
  exact C5_amended_paired_restoration initState _ ⟨fun d => rfl, fun p => rfl⟩
    (Balanced.wrapP Periph.Gpio [] Balanced.nil) rfl

/-! ### Domain/peripheral nesting invariant (claim C6) -/

theorem countP_cons_arith {α : Type} (f : α → Bool) (a : α) (xs : List α) :
    (a :: xs).countP f = xs.countP f + (if f a = true then 1 else 0) := by
  by_cases h : f a = true
  · rw [List.countP_cons_of_pos _ _ h, if_pos h]
  · rw [List.countP_cons_of_neg _ _ (by simp [h]), if_neg h]
    omega

theorem countP_congr_all {α : Type} (xs : List α) (f g : α → Bool)
    (h : ∀ a ∈ xs, f a = g a) : xs.countP f = xs.countP g := by
  induction xs with
  | nil => rfl
  | cons a xs ih =>
    rw [countP_cons_arith, countP_cons_arith, h a (List.mem_cons_self a xs),
        ih (fun b hb => h b (List.mem_cons_of_mem a hb))]

theorem countP_flip {α : Type} (xs : List α) (hnd : xs.Nodup) (a : α) (ha : a ∈ xs)
    (f g : α → Bool) (h : ∀ b ∈ xs, b ≠ a → f b = g b) :
    xs.countP g + (if f a = true then 1 else 0)
      = xs.countP f + (if g a = true then 1 else 0) := by
  induction xs with
  | nil => cases ha
  | cons x xs ih =>
    rw [countP_cons_arith, countP_cons_arith]
    rcases List.mem_cons.mp ha with heqa | hmem
    · subst heqa
      have hnotin : a ∉ xs := (List.nodup_cons.mp hnd).1
      have heq : xs.countP f = xs.countP g :=
        countP_congr_all xs f g
          (fun b hb => h b (List.mem_cons_of_mem a hb)
            (fun hc => hnotin (hc ▸ hb)))
      rw [heq]
      omega
    · have hx : x ≠ a := by
        intro hc
        exact (List.nodup_cons.mp hnd).1 (hc ▸ hmem)
      rw [h x (List.mem_cons_self x xs) hx]
      have := ih (List.nodup_cons.mp hnd).2 hmem
        (fun b hb hb2 => h b (List.mem_cons_of_mem x hb) hb2)
      omega

theorem countP_flip_up {α : Type} (xs : List α) (hnd : xs.Nodup) (a : α) (ha : a ∈ xs)
    (f g : α → Bool) (h : ∀ b ∈ xs, b ≠ a → f b = g b)
    (hfa : f a = false) (hga : g a = true) :
    xs.countP g = xs.countP f + 1 := by
  have hq := countP_flip xs hnd a ha f g h
  rw [hfa, hga] at hq
  simp at hq
  omega

theorem countP_flip_down {α : Type} (xs : List α) (hnd : xs.Nodup) (a : α) (ha : a ∈ xs)
    (f g : α → Bool) (h : ∀ b ∈ xs, b ≠ a → f b = g b)
    (hfa : f a = true) (hga : g a = false) :
    xs.countP g + 1 = xs.countP f := by
  have hq := countP_flip xs hnd a ha f g h
  rw [hfa, hga] at hq
  simp at hq
  omega

theorem countP_pos_of_mem {α : Type} (xs : List α) (f : α → Bool) (a : α)
    (ha : a ∈ xs) (hf : f a = true) : 0 < xs.countP f := by
  induction xs with
  | nil => cases ha
  | cons x xs ih =>
    rw [countP_cons_arith]
    rcases List.mem_cons.mp ha with rfl | hmem
    · rw [if_pos hf]
      omega
    · have := ih hmem
      omega

theorem parentOf_ne_none (p : Periph) (h : p ≠ Periph.None) :
    parentOf p ≠ Domain.None := by
  cases p <;> simp [parentOf] at h ⊢

theorem mem_allPeriphs (p : Periph) (h : p ≠ Periph.None) : p ∈ allPeriphs := by
  cases p <;> simp [allPeriphs] at h ⊢

theorem allPeriphs_nodup : allPeriphs.Nodup := by decide

theorem activeCount_eq_of_periphCount (S S2 : PState)
    (h : S2.periphCount = S.periphCount) (d : Domain) :
    activeCount S2 d = activeCount S d := by
  unfold activeCount
  rw [h]

theorem setDomainDep_domainCount_other (S : PState) (d d2 : Domain) (h : d2 ≠ d) :
    (setDomainDep S d).domainCount d2 = S.domainCount d2 := by
  unfold setDomainDep
  split
  · rfl
  · split
    · rfl
    · exact updD_other _ _ _ _ h

theorem clearDomainDep_domainCount_other (S : PState) (d d2 : Domain) (h : d2 ≠ d) :
    (clearDomainDep S d).domainCount d2 = S.domainCount d2 := by
  unfold clearDomainDep
  split
  · rfl
  · split
    · rfl
    · exact updD_other _ _ _ _ h

theorem setDomainDep_domainCount_self (S : PState) (d : Domain)
    (hn : d ≠ Domain.None) (hm : S.domainCount d ≠ maxDepCount) :
    (setDomainDep S d).domainCount d = S.domainCount d + 1 := by
  unfold setDomainDep
  rw [if_neg hn, if_neg hm]
  exact updD_self _ _ _

theorem clearDomainDep_domainCount_self (S : PState) (d : Domain)
    (hn : d ≠ Domain.None) (hz : S.domainCount d ≠ 0) :
    (clearDomainDep S d).domainCount d = S.domainCount d - 1 := by
  unfold clearDomainDep
  rw [if_neg hn, if_neg hz]
  exact updD_self _ _ _

theorem trackOk_setD (S : PState) (od : Domain → Nat) (op2 : Periph → Nat) (d : Domain)
    (h : TrackOk S od op2) (hsat : satHit S (Op.setD d) = false) :
    TrackOk (setDomainDep S d) (updD od d (od d + 1)) op2 := by
  by_cases hn : d = Domain.None
  · subst hn
    have hid : setDomainDep S Domain.None = S := by simp [setDomainDep]
    constructor
    · intro p hp
      rw [hid]
      exact h.1 p hp
    · intro d2 hd2
      rw [hid, updD_other _ _ _ _ hd2]
      exact h.2 d2 hd2
  · have hm : S.domainCount d ≠ maxDepCount := by
      rcases satHit_setD_false S d hsat with hc | hc
      · exact absurd hc hn
      · exact hc
    have hpc : (setDomainDep S d).periphCount = S.periphCount := setDomainDep_periphCount S d
    constructor
    · intro p hp
      rw [hpc]
      exact h.1 p hp
    · intro d2 hd2
      rw [activeCount_eq_of_periphCount S _ hpc d2]
      by_cases hdd : d2 = d
      · subst hdd
        rw [setDomainDep_domainCount_self S d2 hn hm, updD_self, h.2 d2 hd2]
        omega
      · rw [setDomainDep_domainCount_other S d d2 hdd, updD_other _ _ _ _ hdd]
        exact h.2 d2 hd2

theorem trackOk_clearD (S : PState) (od : Domain → Nat) (op2 : Periph → Nat) (d : Domain)
    (h : TrackOk S od op2) (hguard : od d ≠ 0) :
    TrackOk (clearDomainDep S d) (updD od d (od d - 1)) op2 := by
  by_cases hn : d = Domain.None
  · subst hn
    have hid : clearDomainDep S Domain.None = S := by simp [clearDomainDep]
    constructor
    · intro p hp
      rw [hid]
      exact h.1 p hp
    · intro d2 hd2
      rw [hid, updD_other _ _ _ _ hd2]
      exact h.2 d2 hd2
  · have hz : S.domainCount d ≠ 0 := by
      have := h.2 d hn
      omega
    have hpc : (clearDomainDep S d).periphCount = S.periphCount :=
      clearDomainDep_periphCount S d
    constructor
    · intro p hp
      rw [hpc]
      exact h.1 p hp
    · intro d2 hd2
      rw [activeCount_eq_of_periphCount S _ hpc d2]
      by_cases hdd : d2 = d
      · subst hdd
        rw [clearDomainDep_domainCount_self S d2 hn hz, updD_self, h.2 d2 hd2]
        omega
      · rw [clearDomainDep_domainCount_other S d d2 hdd, updD_other _ _ _ _ hdd]
        exact h.2 d2 hd2

theorem trackOk_setP (S : PState) (od : Domain → Nat) (op2 : Periph → Nat) (p : Periph)
    (h : TrackOk S od op2) (hsat : satHit S (Op.setP p) = false) :
    TrackOk (setPeriphDep S p) od (updP op2 p (op2 p + 1)) := by
  by_cases hn : p = Periph.None
  · subst hn
    have hid : setPeriphDep S Periph.None = S := by simp [setPeriphDep]
    constructor
    · intro p2 hp2
      rw [hid, updP_other _ _ _ _ hp2]
      exact h.1 p2 hp2
    · intro d2 hd2
      rw [hid]
      exact h.2 d2 hd2
  · obtain ⟨hns, hpar⟩ := satHit_setP_false S p hn hsat
    unfold setPeriphDep
    rw [if_neg hn, if_neg hns]
    by_cases h0 : S.periphCount p = 0
    · rw [if_pos (by omega)]
      have hpc : (storePeriphOn (setDomainDep (storePeriphCount S p (S.periphCount p + 1))
          (parentOf p)) p true).periphCount
            = updP S.periphCount p (S.periphCount p + 1) := by
        rw [storePeriphOn_periphCount, setDomainDep_periphCount,
            storePeriphCount_periphCount]
      have hparn : parentOf p ≠ Domain.None := parentOf_ne_none p hn
      have hm2 : S.domainCount (parentOf p) ≠ maxDepCount := by
        rcases hpar h0 with hc | hc
        · exact absurd hc hparn
        · exact hc
      constructor
      · intro p2 hp2
        rw [hpc]
        by_cases hpp : p2 = p
        · subst hpp
          rw [updP_self, updP_self, h.1 p2 hp2]
        · rw [updP_other _ _ _ _ hpp, updP_other _ _ _ _ hpp]
          exact h.1 p2 hp2
      · intro d2 hd2
        rw [storePeriphOn_domainCount]
        by_cases hdd : d2 = parentOf p
        · subst hdd
          rw [setDomainDep_domainCount_self _ _ hparn
            (by rw [storePeriphCount_domainCount]; exact hm2)]
          rw [storePeriphCount_domainCount]
          have hflip := countP_flip_up allPeriphs allPeriphs_nodup p (mem_allPeriphs p hn)
            (fun q => decide (parentOf q = parentOf p) && decide (0 < S.periphCount q))
            (fun q => decide (parentOf q = parentOf p)
              && decide (0 < updP S.periphCount p (S.periphCount p + 1) q))
            (fun b _ hbp => by simp only [updP_other _ _ _ _ hbp])
            (by show (decide (parentOf p = parentOf p)
                  && decide (0 < S.periphCount p)) = false
                simp [h0])
            (by show (decide (parentOf p = parentOf p)
                  && decide (0 < updP S.periphCount p (S.periphCount p + 1) p)) = true
                simp only [updP_self]
                simp)
          have h2 := h.2 (parentOf p) hparn
          simp only [activeCount, hpc] at h2 ⊢
          omega
        · rw [setDomainDep_domainCount_other _ _ _ hdd, storePeriphCount_domainCount]
          have hcong : allPeriphs.countP
              (fun q => decide (parentOf q = d2)
                && decide (0 < updP S.periphCount p (S.periphCount p + 1) q))
              = allPeriphs.countP
                  (fun q => decide (parentOf q = d2) && decide (0 < S.periphCount q)) := by
            apply countP_congr_all
            intro b _
            by_cases hbp : b = p
            · subst hbp
              have hfalse : decide (parentOf b = d2) = false := by
                rw [decide_eq_false_iff_not]
                intro hc
                exact hdd hc.symm
              simp only [hfalse, Bool.false_and]
            · simp only [updP_other _ _ _ _ hbp]
          simp only [activeCount, hpc]
          rw [hcong]
          exact h.2 d2 hd2
    · rw [if_neg (by omega)]
      constructor
      · intro p2 hp2
        rw [storePeriphCount_periphCount]
        by_cases hpp : p2 = p
        · subst hpp
          rw [updP_self, updP_self, h.1 p2 hp2]
        · rw [updP_other _ _ _ _ hpp, updP_other _ _ _ _ hpp]
          exact h.1 p2 hp2
      · intro d2 hd2
        rw [storePeriphCount_domainCount]
        have hcong : activeCount (storePeriphCount S p (S.periphCount p + 1)) d2
            = activeCount S d2 := by
          simp only [activeCount, storePeriphCount_periphCount]
          apply countP_congr_all
          intro b _
          by_cases hbp : b = p
          · subst hbp
            simp only [updP_self]
            have ha1 : decide (0 < S.periphCount b) = true := by
              rw [decide_eq_true_eq]
              omega
            have ha2 : decide (0 < S.periphCount b + 1) = true := by
              rw [decide_eq_true_eq]
              omega
            rw [ha1, ha2]
          · simp only [updP_other _ _ _ _ hbp]
        rw [hcong]
        exact h.2 d2 hd2

theorem trackOk_clearP (S : PState) (od : Domain → Nat) (op2 : Periph → Nat) (p : Periph)
    (h : TrackOk S od op2) (hguard : op2 p ≠ 0) :
    TrackOk (clearPeriphDep S p) od (updP op2 p (op2 p - 1)) := by
  by_cases hn : p = Periph.None
  · subst hn
    have hid : clearPeriphDep S Periph.None = S := by simp [clearPeriphDep]
    constructor
    · intro p2 hp2
      rw [hid, updP_other _ _ _ _ hp2]
      exact h.1 p2 hp2
    · intro d2 hd2
      rw [hid]
      exact h.2 d2 hd2
  · have hcnt : S.periphCount p = op2 p := h.1 p hn
    have hnz : S.periphCount p ≠ 0 := by omega
    unfold clearPeriphDep
    rw [if_neg hn, if_neg hnz]
    by_cases h1 : S.periphCount p - 1 = 0
    · rw [if_pos h1]
      have hparn : parentOf p ≠ Domain.None := parentOf_ne_none p hn
      have hYpc : (storePeriphOn (storePeriphCount S p (S.periphCount p - 1))
          p false).periphCount = updP S.periphCount p (S.periphCount p - 1) := by
        rw [storePeriphOn_periphCount, storePeriphCount_periphCount]
      have hactp : 0 < activeCount S (parentOf p) :=
        countP_pos_of_mem _ _ p (mem_allPeriphs p hn)
          (by simp only [decide_eq_true_eq, Bool.and_eq_true]; exact ⟨by trivial, by omega⟩)
      have hYdc : ∀ d2, (storePeriphOn (storePeriphCount S p (S.periphCount p - 1))
          p false).domainCount d2 = S.domainCount d2 := fun d2 => by
        rw [storePeriphOn_domainCount, storePeriphCount_domainCount]
      have hzz : (storePeriphOn (storePeriphCount S p (S.periphCount p - 1))
          p false).domainCount (parentOf p) ≠ 0 := by
        rw [hYdc, h.2 (parentOf p) hparn]
        omega
      have hfinpc : (clearDomainDep (storePeriphOn
          (storePeriphCount S p (S.periphCount p - 1)) p false) (parentOf p)).periphCount
            = updP S.periphCount p (S.periphCount p - 1) := by
        rw [clearDomainDep_periphCount, hYpc]
      constructor
      · intro p2 hp2
        rw [hfinpc]
        by_cases hpp : p2 = p
        · subst hpp
          rw [updP_self, updP_self, hcnt]
        · rw [updP_other _ _ _ _ hpp, updP_other _ _ _ _ hpp]
          exact h.1 p2 hp2
      · intro d2 hd2
        by_cases hdd : d2 = parentOf p
        · subst hdd
          rw [clearDomainDep_domainCount_self _ _ hparn hzz, hYdc]
          have hflip := countP_flip_down allPeriphs allPeriphs_nodup p (mem_allPeriphs p hn)
            (fun q => decide (parentOf q = parentOf p) && decide (0 < S.periphCount q))
            (fun q => decide (parentOf q = parentOf p)
              && decide (0 < updP S.periphCount p (S.periphCount p - 1) q))
            (fun b _ hbp => by simp only [updP_other _ _ _ _ hbp])
            (by show (decide (parentOf p = parentOf p)
                  && decide (0 < S.periphCount p)) = true
                simp only [decide_eq_true_eq, Bool.and_eq_true]
                exact ⟨by trivial, by omega⟩)
            (by show (decide (parentOf p = parentOf p)
                  && decide (0 < updP S.periphCount p (S.periphCount p - 1) p)) = false
                simp only [updP_self]
                simp only [Bool.and_eq_false_iff, decide_eq_false_iff_not]
                right
                omega)
          have h2 := h.2 (parentOf p) hparn
          simp only [activeCount, hfinpc] at h2 hactp ⊢
          omega
        · rw [clearDomainDep_domainCount_other _ _ _ hdd, hYdc]
          have hcong : allPeriphs.countP
              (fun q => decide (parentOf q = d2)
                && decide (0 < updP S.periphCount p (S.periphCount p - 1) q))
              = allPeriphs.countP
                  (fun q => decide (parentOf q = d2) && decide (0 < S.periphCount q)) := by
            apply countP_congr_all
            intro b _
            by_cases hbp : b = p
            · subst hbp
              have hfalse : decide (parentOf b = d2) = false := by
                rw [decide_eq_false_iff_not]
                intro hc
                exact hdd hc.symm
              simp only [hfalse, Bool.false_and]
            · simp only [updP_other _ _ _ _ hbp]
          simp only [activeCount, hfinpc]
          rw [hcong]
          exact h.2 d2 hd2
    · rw [if_neg h1]
      constructor
      · intro p2 hp2
        rw [storePeriphCount_periphCount]
        by_cases hpp : p2 = p
        · subst hpp
          rw [updP_self, updP_self, hcnt]
        · rw [updP_other _ _ _ _ hpp, updP_other _ _ _ _ hpp]
          exact h.1 p2 hp2
      · intro d2 hd2
        rw [storePeriphCount_domainCount]
        have hcong : activeCount (storePeriphCount S p (S.periphCount p - 1)) d2
            = activeCount S d2 := by
          simp only [activeCount, storePeriphCount_periphCount]
          apply countP_congr_all
          intro b _
          by_cases hbp : b = p
          · subst hbp
            simp only [updP_self]
            have ha1 : decide (0 < S.periphCount b) = true := by
              rw [decide_eq_true_eq]
              omega
            have ha2 : decide (0 < S.periphCount b - 1) = true := by
              rw [decide_eq_true_eq]
              omega
            rw [ha1, ha2]
          · simp only [updP_other _ _ _ _ hbp]
        rw [hcong]
        exact h.2 d2 hd2

theorem trackOk_run (ops : List Op) :
    ∀ (S : PState) (od : Domain → Nat) (op2 : Periph → Nat),
      TrackOk S od op2 → satFree S ops = true → openOk od op2 ops = true →
      ∃ od2 op3, TrackOk (run S ops) od2 op3 := by
  induction ops with
  | nil =>
    intro S od op2 h _ _
    exact ⟨od, op2, h⟩
  | cons o rest ih =>
    intro S od op2 h hsf hopen
    obtain ⟨hhit, hsf2⟩ := (satFree_cons S o rest).mp hsf
    cases o with
    | setD d =>
      exact ih _ _ _ (trackOk_setD S od op2 d h hhit) hsf2 hopen
    | clearD d =>
      have hopen2 : openOk od op2 (Op.clearD d :: rest)
          = if od d = 0 then false
            else openOk (updD od d (od d - 1)) op2 rest := rfl
      rw [hopen2] at hopen
      by_cases hz : od d = 0
      · rw [if_pos hz] at hopen
        cases hopen
      · rw [if_neg hz] at hopen
        exact ih _ _ _ (trackOk_clearD S od op2 d h hz) hsf2 hopen
    | setP p =>
      exact ih _ _ _ (trackOk_setP S od op2 p h hhit) hsf2 hopen
    | clearP p =>
      have hopen2 : openOk od op2 (Op.clearP p :: rest)
          = if op2 p = 0 then false
            else openOk od (updP op2 p (op2 p - 1)) rest := rfl
      rw [hopen2] at hopen
      by_cases hz : op2 p = 0
      · rw [if_pos hz] at hopen
        cases hopen
      · rw [if_neg hz] at hopen
        exact ih _ _ _ (trackOk_clearP S od op2 p h hz) hsf2 hopen

theorem openOk_replicate_setD (n : Nat) :
    ∀ (od : Domain → Nat) (op2 : Periph → Nat) (d : Domain) (rest : List Op),
      openOk od op2 (List.replicate n (Op.setD d) ++ rest)
        = openOk (updD od d (od d + n)) op2 rest := by
  induction n with
  | zero =>
    intro od op2 d rest
    rw [List.replicate_zero, List.nil_append, updD_cancel _ _ _ (by omega)]
  | succ n ih =>
    intro od op2 d rest
    rw [List.replicate_succ, List.cons_append]
    show openOk (updD od d (od d + 1)) op2 (List.replicate n (Op.setD d) ++ rest) = _
    rw [ih]
    rw [updD_self, updD_updD]
    have harith : od d + 1 + n = od d + (n + 1) := by omega
    rw [harith]

theorem openOk_replicate_clearD (n : Nat) :
    ∀ (od : Domain → Nat) (op2 : Periph → Nat) (d : Domain), n ≤ od d →
      openOk od op2 (List.replicate n (Op.clearD d)) = true := by
  induction n with
  | zero =>
    intro od op2 d _
    rfl
  | succ n ih =>
    intro od op2 d hn
    rw [List.replicate_succ]
    show (if od d = 0 then false else openOk (updD od d (od d - 1)) op2
      (List.replicate n (Op.clearD d))) = true
    rw [if_neg (by omega)]
    refine ih _ op2 d ?_
    rw [updD_self]
    omega

theorem initState_eq_satDom : initState = satDomState 0 := by
  ext : 1 <;> funext x <;> simp [initState, satDomState]

theorem setD_satDom_step (c : Nat) (hc : c ≤ 254) :
    setDomainDep (satDomState c) Domain.Periph = satDomState (c + 1) := by
  have hcount : (satDomState c).domainCount Domain.Periph = c := by simp [satDomState]
  have hmax : (satDomState c).domainCount Domain.Periph ≠ maxDepCount := by
    rw [hcount]
    simp only [maxDepCount]
    omega
  unfold setDomainDep
  rw [if_neg (by decide), if_neg hmax, hcount]
  ext : 1
  · funext d
    by_cases hd : d = Domain.Periph <;> simp [updD, satDomState, hd]
  · rfl
  · funext d
    by_cases hd : d = Domain.Periph
    · subst hd
      by_cases hc0 : c + 1 = 1
      · rw [if_pos hc0]
        simp [updDB, satDomState, hc0]
      · rw [if_neg hc0]
        simp only [satDomState]
        rw [if_pos trivial, if_pos trivial, decide_eq_decide]
        omega
    · by_cases hc0 : c + 1 = 1
      · rw [if_pos hc0]
        simp [updDB, satDomState, hd]
      · rw [if_neg hc0]
        simp [satDomState, hd]
  · rfl

theorem run_replicate_setD (n : Nat) :
    ∀ c : Nat, c + n ≤ 255 →
      run (satDomState c) (List.replicate n (Op.setD Domain.Periph))
        = satDomState (c + n) := by
  induction n with
  | zero =>
    intro c _
    rfl
  | succ n ih =>
    intro c hc
    rw [List.replicate_succ, run_cons]
    show run (setDomainDep (satDomState c) Domain.Periph)
      (List.replicate n (Op.setD Domain.Periph)) = _
    rw [setD_satDom_step c (by omega), ih (c + 1) (by omega)]
    have : c + 1 + n = c + (n + 1) := by omega
    rw [this]

theorem setP_gpio_sat :
    setPeriphDep (satDomState 255) Periph.Gpio = satBothState 255 := by
  unfold setPeriphDep
  rw [if_neg (by decide), if_neg (by decide), if_pos (by decide)]
  have hdom : setDomainDep (storePeriphCount (satDomState 255) Periph.Gpio
      ((satDomState 255).periphCount Periph.Gpio + 1)) (parentOf Periph.Gpio)
        = storePeriphCount (satDomState 255) Periph.Gpio 1 := by
    unfold setDomainDep
    rw [if_neg (by decide), if_pos (by decide)]
    rfl
  rw [hdom]
  ext : 1
  · rfl
  · funext p
    by_cases hp : p = Periph.Gpio <;>
      simp [storePeriphOn, storePeriphCount, updP, satDomState, satBothState, hp]
  · rfl
  · funext p
    by_cases hp : p = Periph.Gpio <;>
      simp [storePeriphOn, storePeriphCount, updPB, satDomState, satBothState, hp]

theorem clearD_satBoth_step (c : Nat) (hc : 1 ≤ c) :
    clearDomainDep (satBothState c) Domain.Periph = satBothState (c - 1) := by
  have hcount : (satBothState c).domainCount Domain.Periph = c := by simp [satBothState]
  unfold clearDomainDep
  rw [if_neg (by decide), if_neg (by rw [hcount]; omega), hcount]
  ext : 1
  · funext d
    by_cases hd : d = Domain.Periph <;> simp [updD, satBothState, hd]
  · rfl
  · funext d
    by_cases hd : d = Domain.Periph
    · subst hd
      by_cases hc0 : c - 1 = 0
      · rw [if_pos hc0]
        simp [updDB, satBothState, hc0]
      · rw [if_neg hc0]
        simp only [satBothState]
        rw [if_pos trivial, if_pos trivial, decide_eq_decide]
        omega
    · by_cases hc0 : c - 1 = 0
      · rw [if_pos hc0]
        simp [updDB, satBothState, hd]
      · rw [if_neg hc0]
        simp [satBothState, hd]
  · rfl

theorem run_replicate_clearD (n : Nat) :
    ∀ c : Nat, n ≤ c →
      run (satBothState c) (List.replicate n (Op.clearD Domain.Periph))
        = satBothState (c - n) := by
  induction n with
  | zero =>
    intro c _
    rfl
  | succ n ih =>
    intro c hc
    rw [List.replicate_succ, run_cons]
    show run (clearDomainDep (satBothState c) Domain.Periph)
      (List.replicate n (Op.clearD Domain.Periph)) = _
    rw [clearD_satBoth_step c (by omega), ih (c - 1) (by omega)]
    have : c - 1 - n = c - (n + 1) := by omega
    rw [this]

/-- Claim C6, counterexample.  A history in which every release matches an
earlier acquire can still reach a state where a domain counter is zero
while a peripheral beneath it is held: acquire the Periph domain
directly 255 times (saturating its `uint8_t` counter), acquire the Gpio
peripheral (whose transitive parent acquire is then a silent saturated
no-op), and release the 255 direct domain acquires.  The Gpio counter is
1 but its parent domain counter is 0. -/
theorem C6_counterexample :
    openOk (fun _ => 0) (fun _ => 0)
      (List.replicate 255 (Op.setD Domain.Periph)
        ++ Op.setP Periph.Gpio :: List.replicate 255 (Op.clearD Domain.Periph)) = true
    ∧ (run initState
        (List.replicate 255 (Op.setD Domain.Periph)
          ++ Op.setP Periph.Gpio :: List.replicate 255 (Op.clearD Domain.Periph))).periphCount
        Periph.Gpio = 1
    ∧ (run initState
        (List.replicate 255 (Op.setD Domain.Periph)
          ++ Op.setP Periph.Gpio :: List.replicate 255 (Op.clearD Domain.Periph))).domainCount
        Domain.Periph = 0 := by
  have h1 : run (satDomState 0) (List.replicate 255 (Op.setD Domain.Periph))
      = satDomState 255 := by
    exact run_replicate_setD 255 0 (by omega)
  have h2 : run (satBothState 255) (List.replicate 255 (Op.clearD Domain.Periph))
      = satBothState 0 := by
    exact run_replicate_clearD 255 255 (by omega)
  have hrun : run initState
      (List.replicate 255 (Op.setD Domain.Periph)
        ++ Op.setP Periph.Gpio :: List.replicate 255 (Op.clearD Domain.Periph))
      = satBothState 0 := by
    rw [run_append, initState_eq_satDom, h1, run_cons]
    show run (setPeriphDep (satDomState 255) Periph.Gpio)
      (List.replicate 255 (Op.clearD Domain.Periph)) = _
    rw [setP_gpio_sat, h2]
  refine ⟨?_, ?_, ?_⟩
  · rw [openOk_replicate_setD]
    show openOk (updD (fun _ => 0) Domain.Periph (0 + 255))
      (updP (fun _ => 0) Periph.Gpio ((fun _ : Periph => (0 : Nat)) Periph.Gpio + 1))
      (List.replicate 255 (Op.clearD Domain.Periph)) = true
    refine openOk_replicate_clearD 255 _ _ _ ?_
    rw [updD_self]
  · rw [hrun]
    rfl
  · rw [hrun]
    rfl

/-- Claim C6, amended.  Locally the claimed ordering holds unconditionally:
acquiring a peripheral whose own counter is 0 while its parent domain
counter is 0 leaves the parent counter at exactly 1 (never skipped), and
releasing a peripheral whose counter is at least 2 leaves the parent
counter untouched.  The global invariant — a domain counter is never 0
while a peripheral statically mapped to it has a positive counter —
holds in every state reached from startup by a history in which every
release matches an earlier acquire, provided no acquire in the history
lands on a saturated counter (saturated acquires break the accounting —
see the counterexample). -/
theorem C6_amended_domain_periph_invariant :
    (∀ (S : PState) (p : Periph), p ≠ Periph.None →
      S.periphCount p = 0 → S.domainCount (parentOf p) = 0 →
      (execOp S (Op.setP p)).domainCount (parentOf p) = 1)
    ∧ (∀ (S : PState) (p : Periph), 2 ≤ S.periphCount p →
        (execOp S (Op.clearP p)).domainCount (parentOf p)
          = S.domainCount (parentOf p))
    ∧ (∀ ops : List Op,
        openOk (fun _ => 0) (fun _ => 0) ops = true →
        satFree initState ops = true →
        ∀ p : Periph, p ≠ Periph.None →
          (run initState ops).domainCount (parentOf p) = 0 →
          (run initState ops).periphCount p = 0) := by
  refine ⟨?_, ?_, ?_⟩
  · intro S p hn h0 hd0
    show (setPeriphDep S p).domainCount (parentOf p) = 1
    unfold setPeriphDep
    rw [if_neg hn, if_neg (by rw [h0]; decide), if_pos (by rw [h0])]
    rw [storePeriphOn_domainCount,
        setDomainDep_domainCount_self _ _ (parentOf_ne_none p hn)
          (by rw [storePeriphCount_domainCount, hd0]; decide),
        storePeriphCount_domainCount, hd0]
  · intro S p h2
    show (clearPeriphDep S p).domainCount (parentOf p) = S.domainCount (parentOf p)
    by_cases hn : p = Periph.None
    · simp [clearPeriphDep, hn]
    · unfold clearPeriphDep
      rw [if_neg hn, if_neg (by omega), if_neg (by omega)]
      rw [storePeriphCount_domainCount]
  · intro ops hopen hsf p hn hd0
    have hinit : TrackOk initState (fun _ => 0) (fun _ => 0) := by
      constructor
      · intro p2 _
        rfl
      · intro d2 _
        show (0 : Nat) = 0 + activeCount initState d2
        have hz : activeCount initState d2 = 0 := by
          rw [activeCount, List.countP_eq_zero]
          intro a _
          simp [initState]
        omega
    obtain ⟨od2, op3, hR⟩ := trackOk_run ops initState _ _ hinit hsf hopen
    by_contra hne
    have hpos : 0 < (run initState ops).periphCount p := by omega
    have hact : 0 < activeCount (run initState ops) (parentOf p) :=
      countP_pos_of_mem _ _ p (mem_allPeriphs p hn)
        (by simp only [decide_eq_true_eq, Bool.and_eq_true]
            exact ⟨by trivial, hpos⟩)
    have := hR.2 (parentOf p) (parentOf_ne_none p hn)
    omega

theorem C6_witness :
    openOk (fun _ => 0) (fun _ => 0) [Op.setP Periph.Gpio, Op.clearP Periph.Gpio] = true
    ∧ satFree initState [Op.setP Periph.Gpio, Op.clearP Periph.Gpio] = true
    ∧ ((run initState [Op.setP Periph.Gpio, Op.clearP Periph.Gpio]).domainCount
          (parentOf Periph.Gpio) = 0 →
        (run initState [Op.setP Periph.Gpio, Op.clearP Periph.Gpio]).periphCount
          Periph.Gpio = 0) :=
  ⟨rfl, rfl,
   C6_amended_domain_periph_invariant.2.2 [Op.setP Periph.Gpio, Op.clearP Periph.Gpio]
     rfl rfl Periph.Gpio (by decide)⟩

/-! ### SPI transport (claim C10) -/

/-- Claim C10: `Spi::write` has no failure path — it returns `true` for
every buffer — while `Spi::read` can fail, since its per-byte
non-blocking FIFO put can be refused. -/
theorem C10_spi_write_infallible :
    (∀ buf : List Nat, (spiWrite buf).1 = true)
    ∧ (∃ (putOk : Nat → Bool) (len idx : Nat), spiRead putOk len idx = false) := by
  constructor
  · intro buf
    induction buf with
    | nil => rfl
    | cons b rest ih => simpa [spiWrite] using ih
  · exact ⟨fun _ => false, 1, 0, rfl⟩

end FlashRover
